import Mathlib

/-!
Verification of the ProxyHome proxy-management platform against its
specification.  The repository ships the React/TypeScript frontend
(`frontend/src`); the Django backend that implements the fetch/validation
job engine is not part of the checked sources, so backend behaviour is
modelled from the specification where noted.  Frontend functions are
translated directly from the TypeScript source files.
-/

/-! ## Data model (frontend/src/types/index.ts) -/

/-- The proxy protocol union `'http' | 'socks4' | 'socks5'` from `Proxy.proxy_type`. -/
inductive ProxyType where
  | http
  | socks4
  | socks5
deriving DecidableEq, Repr

/-- The job status union `'pending' | 'running' | 'completed' | 'failed'` from
`FetchJob.status`. -/
inductive JobStatus where
  | pending
  | running
  | completed
  | failed
deriving DecidableEq, Repr

/-- The job type union `'premium' | 'public' | 'basic' | 'unified'` from
`FetchJob.job_type`. -/
inductive JobType where
  | premium
  | publicTier
  | basic
  | unified
deriving DecidableEq, Repr

/-- One entry of `FetchJob.log_messages : Array<{timestamp, message}>`. -/
structure LogEntry where
  timestamp : String
  message : String
deriving DecidableEq, Repr

/-- The `FetchJob` interface (fields relevant to the verified claims). -/
structure FetchJob where
  id : Nat
  job_type : JobType
  status : JobStatus
  proxies_found : Nat
  proxies_working : Nat
  sources_tried : Nat
  sources_successful : Nat
  validate_proxies : Bool
  timeout : Int
  max_workers : Int
  log_messages : List LogEntry
  error_message : String
deriving DecidableEq, Repr

/-! ## C1: success_rate formula and bounds.

Modelled from the spec: the backend that computes `Proxy.success_rate` is not
among the checked sources; §3 of the spec defines
`success_rate = success_count/(success_count+failure_count)×100` when the
denominator is positive, else 0. -/

/-- Modelled from the spec: the pool entity's derived `success_rate` field,
computed from `success_count` and `failure_count`. -/
def success_rate (success_count failure_count : Nat) : ℚ :=
  if success_count + failure_count = 0 then 0
  else (success_count : ℚ) / ((success_count : ℚ) + (failure_count : ℚ)) * 100

/-! ## Pool model for C2 and C3.

Modelled from the spec: the backend `PoolStore.upsertProxy` (§4.6) and the
`Deduplicator/Merger` (§4.3) are not among the checked sources.  A candidate
is keyed by `(address, port, protocol)`; an upsert merges on a key collision
(refreshing attribute fields, never creating a second row) and appends a new
row otherwise. -/

/-- A candidate proxy record produced by a source adapter (spec §3). -/
structure Candidate where
  ip : String
  port : Nat
  proxy_type : ProxyType
  tier : Nat
  source_name : String
deriving DecidableEq, Repr

/-- A pool row: the dedup key plus the fields touched by merges (spec §3). -/
structure PoolProxy where
  ip : String
  port : Nat
  proxy_type : ProxyType
  tier : Nat
  source_name : String
  is_working : Bool
  success_count : Nat
  failure_count : Nat
deriving DecidableEq, Repr

/-- The dedup key `(address, port, protocol)` of a pool row (spec §3). -/
def PoolProxy.key (p : PoolProxy) : String × Nat × ProxyType :=
  (p.ip, p.port, p.proxy_type)

/-- The dedup key of a candidate. -/
def Candidate.key (c : Candidate) : String × Nat × ProxyType :=
  (c.ip, c.port, c.proxy_type)

/-- Modelled from the spec: merging a re-discovered candidate into an existing
row refreshes attribute fields but keeps the key and never resets counters
(spec §4.3, §4.6). -/
def mergeProxy (old : PoolProxy) (c : Candidate) : PoolProxy :=
  { old with tier := c.tier, source_name := c.source_name }

/-- A fresh pool row created on first discovery of a candidate (spec §3). -/
def Candidate.toRow (c : Candidate) : PoolProxy :=
  { ip := c.ip, port := c.port, proxy_type := c.proxy_type, tier := c.tier
    source_name := c.source_name, is_working := false
    success_count := 0, failure_count := 0 }

/-- Modelled from the spec: `upsertProxy(candidate)` — atomic merge keyed by
`(address, port, protocol)` (spec §4.6). -/
def upsertProxy (pool : List PoolProxy) (c : Candidate) : List PoolProxy :=
  if pool.any (fun p => p.key = c.key) then
    pool.map (fun p => if p.key = c.key then mergeProxy p c else p)
  else
    pool ++ [c.toRow]

/-- Folding a whole sequence of discovered candidates into the pool; an
interleaving of concurrent fetch runs is one such sequence (spec §5: all
writes go through the atomic upsert). -/
def upsertAll (pool : List PoolProxy) (cs : List Candidate) : List PoolProxy :=
  cs.foldl upsertProxy pool

/-- No two rows of a pool share a dedup key. -/
def UniqueKeys (pool : List PoolProxy) : Prop :=
  pool.Pairwise (fun p q => p.key ≠ q.key)

/-! ## Job run model for C3.

Modelled from the spec: the `JobController` state machine (§4.5) is not among
the checked sources.  A run invokes each selected source, counts tried and
successful sources, merges all returned candidates through the deduplicator,
sets `proxies_found` to the merged size, and, if validation was requested,
counts the working outcomes into `proxies_working`. -/

/-- The outcome of invoking one source adapter: either a fetch failure, or a
list of candidates (spec §4.1). -/
structure SourceRun where
  success : Bool
  candidates : List Candidate
deriving Repr

/-- Modelled from the spec: the deduplicated merged set of a run — all
candidates of successful sources folded through the keyed upsert into an
empty set (spec §4.3). -/
def mergedSet (srcs : List SourceRun) : List PoolProxy :=
  upsertAll [] (((srcs.filter (fun s => s.success)).map (fun s => s.candidates)).flatten)

/-- Modelled from the spec: one completed `JobController` run (§4.5): every
source increments `sources_tried`, only successful ones `sources_successful`;
`proxies_found` is the merged-set size; `proxies_working` counts validated
working outcomes when `validate_proxies` is set, else stays 0. -/
def runJob (id : Nat) (jt : JobType) (srcs : List SourceRun) (validate : Bool)
    (works : PoolProxy → Bool) (timeout max_workers : Int) : FetchJob :=
  let merged := mergedSet srcs
  { id := id
    job_type := jt
    status := JobStatus.completed
    proxies_found := merged.length
    proxies_working := if validate then (merged.filter works).length else 0
    sources_tried := srcs.length
    sources_successful := (srcs.filter (fun s => s.success)).length
    validate_proxies := validate
    timeout := timeout
    max_workers := max_workers
    log_messages := []
    error_message := "" }

/-! ## C5: clamped job options.

Modelled from the spec: the backend normalisation of `max_workers` and
`timeout` is not among the checked sources; §4.4 clamps `max_workers` to
1–100 and `timeout` to 5–60 seconds.  The defaults for a missing or
non-numeric value are taken inside the clamp ranges (the frontend form's
initial values, FetchJobs.tsx lines 27–32, are timeout 10 and max workers
30). -/

/-- A raw option value as it arrives at the boundary: a number, a
non-numeric value (e.g. `NaN` from `parseInt` of an empty input), or absent
(the quick-action buttons send no options at all, FetchJobs.tsx line 143). -/
inductive OptVal where
  | num (n : Int)
  | nonNumeric
  | missing
deriving DecidableEq, Repr

/-- Clamp an integer into `[lo, hi]`. -/
def clampInt (lo hi n : Int) : Int := max lo (min hi n)

/-- Modelled from the spec: the worker count a job actually runs with —
numeric values clamped to 1–100, anything else replaced by an in-range
default (spec §4.4). -/
def effectiveMaxWorkers : OptVal → Int
  | OptVal.num n => clampInt 1 100 n
  | _ => 30

/-- Modelled from the spec: the per-attempt timeout a job actually runs
with — numeric values clamped to 5–60 seconds, anything else replaced by an
in-range default (spec §4.4). -/
def effectiveTimeout : OptVal → Int
  | OptVal.num n => clampInt 5 60 n
  | _ => 10

/-! ## C6: confirmation-gated purges.

The client half is translated from `proxyApi` (services/api.ts): the three
purge calls attach the query parameter `confirm=yes`.  The server half is
modelled from the spec (§4.6): the purge endpoints act only when the
confirmation flag is supplied. -/

/-- A client HTTP request: method, url and query parameters. -/
structure ApiRequest where
  method : String
  url : String
  params : List (String × String)
deriving DecidableEq, Repr

/-- Source: `deleteAllProxies: () => api.delete('/proxies/delete_all/', { params: { confirm: 'yes' } })`. -/
def deleteAllProxiesReq : ApiRequest :=
  { method := "DELETE", url := "/proxies/delete_all/", params := [("confirm", "yes")] }

/-- Source: `clearAllJobs: () => api.delete('/jobs/clear_all/', { params: { confirm: 'yes' } })`. -/
def clearAllJobsReq : ApiRequest :=
  { method := "DELETE", url := "/jobs/clear_all/", params := [("confirm", "yes")] }

/-- Source: `clearAllTests: () => api.delete('/tests/clear_all/', { params: { confirm: 'yes' } })`. -/
def clearAllTestsReq : ApiRequest :=
  { method := "DELETE", url := "/tests/clear_all/", params := [("confirm", "yes")] }

/-- Look up a query parameter by name. -/
def lookupParam (ps : List (String × String)) (k : String) : Option String :=
  (ps.find? (fun p => p.1 = k)).map (fun p => p.2)

/-- Modelled from the spec: the backend purge endpoints (`deleteAll`,
`clearAllJobs`, `clearAllTests`) act only when the explicit confirmation
flag is supplied with the request (spec §4.6). -/
def purgeActs (ps : List (String × String)) : Bool :=
  decide (lookupParam ps "confirm" = some "yes")

/-! ## C7: per-job polling interval (hooks/useJobs.ts, useJob). -/

/-- Source: `{job.error_message && (...)}`: the error panel renders exactly when the
string is truthy, i.e. non-empty. -/
def errorPanelRendered (j : FetchJob) : Bool :=
  decide (j.error_message ≠ "")

/-- JavaScript `arr.slice(-10)`: the last `min(10, length)` elements. -/
def sliceLastTen {α : Type} (l : List α) : List α :=
  l.drop (l.length - 10)

/-- Source: `{job.log_messages.length > 0 && (... job.log_messages.slice(-10).map ...)}`:
the log panel renders the `slice(-10)` tail when the list is non-empty,
nothing otherwise. -/
def renderedLogMessages (j : FetchJob) : List LogEntry :=
  if j.log_messages.length > 0 then sliceLastTen j.log_messages else []

/-! ## C10: proxy table cells (pages/ProxyList.tsx lines 409–418). -/

/-- Decimal digits of a natural number. -/
def natDecimalString (n : Nat) : String := toString n

/-- Left-pad a digit string with zeros to the given width. -/
def padZeros (width : Nat) (s : String) : String :=
  String.mk (List.replicate (width - s.length) '0') ++ s

/-- JavaScript `x.toFixed(d)` for `d ≥ 1` on an exact rational: round to the
nearest multiple of `10^(-d)`, ties toward positive infinity (ECMA
Number.prototype.toFixed picks the larger candidate). -/
def jsToFixed (d : Nat) (q : ℚ) : String :=
  let m : Int := ⌊q * (10 : ℚ) ^ d + 1/2⌋
  let sign := if m < 0 then "-" else ""
  let a := m.natAbs
  sign ++ natDecimalString (a / 10 ^ d) ++ "." ++ padZeros d (natDecimalString (a % 10 ^ d))

/-- The success-rate cell:
`{proxy.success_rate ? `${proxy.success_rate.toFixed(1)}%` : '-'}` —
`0` is falsy and renders as `'-'`. -/
def renderSuccessRateCell (r : ℚ) : String :=
  if r = 0 then "-" else jsToFixed 1 r ++ "%"

/-- The response-time cell:
`{proxy.response_time ? `${proxy.response_time.toFixed(2)}s` : '-'}` —
both a missing value and `0` are falsy and render as `'-'`. -/
def renderResponseTimeCell : Option ℚ → String
  | none => "-"
  | some t => if t = 0 then "-" else jsToFixed 2 t ++ "s"

/-! ## C9: the axios response interceptor (services/api.ts lines 40–80).

The interceptor's error handler is translated into an explicit state-passing
model.  `ClientState` is the browser-visible state: the three localStorage
keys and whether the page was redirected to `/login`; a log of dispatched
request urls is kept for counting retries.  A server behaviour is a function
from a request to a response kind.  `send` dispatches one request through
the instance: the request interceptor attaches the stored token, and a 401
response enters the error handler exactly as in the source.  Since the
refresh POST goes through the same `api` instance, it is itself intercepted.
The `fuel` parameter bounds the depth of nested awaited requests; `none`
means the computation did not finish within that depth. -/

/-- A request config: url, the `_retry` marker and the Authorization header. -/
structure ReqCfg where
  url : String
  retried : Bool
  authHeader : Option String
  body : Option String
deriving DecidableEq, Repr

/-- A server's answer to one request. -/
inductive RespKind where
  | ok (payload : String)
  | http401
  | otherErr
deriving DecidableEq, Repr

/-- Browser-visible client state: the three localStorage keys, the redirect
flag, and the urls dispatched so far (most recent first). -/
structure ClientState where
  authToken : Option String
  refreshToken : Option String
  userData : Option String
  redirectedToLogin : Bool
  sentLog : List String
deriving DecidableEq, Repr

/-- The settled result of one request from the caller's point of view. -/
inductive Outcome where
  | success (payload : String)
  | failure
deriving DecidableEq, Repr

/-- Source: `localStorage.removeItem` × 3 and `window.location.href = '/login'`
(source lines 62–65 and 72–75). -/
def clearAuth (st : ClientState) : ClientState :=
  { st with authToken := none, refreshToken := none, userData := none
            redirectedToLogin := true }

/-- The url of the token-refresh endpoint. -/
def refreshUrl : String := "/auth/token/refresh/"

/-- The refresh request `api.post('/auth/token/refresh/', { refresh: refreshToken })`
(source line 52): a fresh config, so its `_retry` marker is unset. -/
def refreshCfg (rt : String) : ReqCfg :=
  { url := refreshUrl, retried := false, authHeader := none, body := some rt }

/-- The request interceptor (source lines 26–38): attach the stored auth
token as the Authorization header when one is present. -/
def withAuth (st : ClientState) (cfg : ReqCfg) : ReqCfg :=
  match st.authToken with
  | some t => { cfg with authHeader := some t }
  | none => cfg

/-- Dispatch one request through the `api` instance.  The request interceptor
(source lines 26–38) attaches the stored token; the response interceptor's
error handler (source lines 41–80) runs on a 401:
on the first 401 of a request it marks `_retry`, refreshes the access token
when one is stored (awaiting a nested `send` of the refresh config) and
replays the request with the fresh token; the replay is returned directly
(`return api(originalRequest)` is not awaited inside the try, so its
rejection bypasses the catch).  When no refresh token is stored, or on a
second 401 of the same request, auth is cleared and the page redirected;
when the awaited refresh rejects, the catch clears auth, redirects and
rejects. -/
def send (server : ReqCfg → RespKind) : Nat → ClientState → ReqCfg →
    Option (ClientState × Outcome)
  | 0, _, _ => none
  | fuel + 1, st, cfg =>
    let cfg1 := withAuth st cfg
    let st1 := { st with sentLog := cfg1.url :: st.sentLog }
    match server cfg1 with
    | RespKind.ok p => some (st1, Outcome.success p)
    | RespKind.otherErr => some (st1, Outcome.failure)
    | RespKind.http401 =>
      if cfg1.retried then some (clearAuth st1, Outcome.failure)
      else
        match st1.refreshToken with
        | none => some (clearAuth st1, Outcome.failure)
        | some rt =>
          match send server fuel st1 (refreshCfg rt) with
          | none => none
          | some (st2, Outcome.success access) =>
            let st3 := { st2 with authToken := some access }
            send server fuel st3
              { cfg1 with retried := true, authHeader := some access }
          | some (st2, Outcome.failure) => some (clearAuth st2, Outcome.failure)

/-- How many times a given url occurs in a dispatch log. -/
def countUrl (u : String) (l : List String) : Nat :=
  (l.filter (fun v => v = u)).length

/-- A server that answers every request, the refresh endpoint included,
with HTTP 401. -/
def alwaysH401 : ReqCfg → RespKind := fun _ => RespKind.http401

/-- An initial client state holding a (stale) refresh token. -/
def staleState : ClientState :=
  { authToken := some "expired", refreshToken := some "stale"
    userData := some "u", redirectedToLogin := false, sentLog := [] }

/-- An ordinary data request, before any retry. -/
def plainReq (u : String) : ReqCfg :=
  { url := u, retried := false, authHeader := none, body := none }

/-- The claim's liveness reading: every request settles after finitely many
nested awaited requests, whatever the server does. -/
def InterceptorAlwaysSettles : Prop :=
  ∀ (server : ReqCfg → RespKind) (st : ClientState) (cfg : ReqCfg),
    ∃ fuel, (send server fuel st cfg).isSome

/-! ## C4: JSON export round trip (useProxies.ts, useExportProxies).

The export handler writes `JSON.stringify(response.data, null, 2)` for the
`json` format.  The JSON data model is embedded as an inductive `Json`;
numeric literals are exact decimals (`mantissa × 10^(-fracDigits)`), which
represent every finite IEEE-754 double — in particular the non-integral
`success_rate` and `response_time` values of real exported proxies.
`jsonStringify` follows ECMA-404 / ECMA-262 `JSON.stringify(v, null, 2)`
with its two-space gap and prints numbers in plain decimal notation, and
`jsonParse` is a recursive-descent reading of `JSON.parse` whose number
grammar takes sign, integer digits, fraction and exponent. -/

/-- A JSON numeric literal, kept exactly: the value is
`mantissa / 10 ^ fracDigits`.  Every finite IEEE-754 double is a dyadic
rational and hence has a finite decimal expansion, so the non-integral
numbers of real exported proxies (`success_rate` such as 66.7,
`response_time` such as 0.85) are represented exactly. -/
structure JsonNumber where
  mantissa : Int
  fracDigits : Nat
deriving BEq, DecidableEq, Repr

/-- A JSON value; numeric literals carry an exact decimal `JsonNumber`. -/
inductive Json where
  | null
  | bool (b : Bool)
  | num (q : JsonNumber)
  | str (s : String)
  | arr (elems : List Json)
  | obj (members : List (String × Json))
deriving BEq, Repr

/-- The opening brace character. -/
def lbraceChar : Char := Char.ofNat 123

/-- The closing brace character. -/
def rbraceChar : Char := Char.ofNat 125

/-- The backspace control character. -/
def bsChar : Char := Char.ofNat 8

/-- The form-feed control character. -/
def ffChar : Char := Char.ofNat 12

/-- Is the character JSON insignificant whitespace? -/
def isWsChar (c : Char) : Bool :=
  c = ' ' ∨ c = '\n' ∨ c = '\t' ∨ c = '\r'

/-- Emits `n` space characters, the indentation produced by the two-space gap. -/
def spacesList (n : Nat) : List Char := List.replicate n ' '

/-- The hex digit character for a value below 16 (lowercase letters, as
produced by `JSON.stringify`). -/
def hexDig : Nat → Char
  | 0 => '0' | 1 => '1' | 2 => '2' | 3 => '3' | 4 => '4'
  | 5 => '5' | 6 => '6' | 7 => '7' | 8 => '8' | 9 => '9'
  | 10 => 'a' | 11 => 'b' | 12 => 'c' | 13 => 'd' | 14 => 'e'
  | _ => 'f'

/-- The numeric value of a hex digit character, if it is one. -/
def hexVal (c : Char) : Option Nat :=
  if c = '0' then some 0 else if c = '1' then some 1
  else if c = '2' then some 2 else if c = '3' then some 3
  else if c = '4' then some 4 else if c = '5' then some 5
  else if c = '6' then some 6 else if c = '7' then some 7
  else if c = '8' then some 8 else if c = '9' then some 9
  else if c = 'a' ∨ c = 'A' then some 10 else if c = 'b' ∨ c = 'B' then some 11
  else if c = 'c' ∨ c = 'C' then some 12 else if c = 'd' ∨ c = 'D' then some 13
  else if c = 'e' ∨ c = 'E' then some 14 else if c = 'f' ∨ c = 'F' then some 15
  else none

/-- ECMA-262 QuoteJSONString, per character: quote and backslash get
two-character escapes, the named control characters their short escapes,
the remaining control characters a `\u00xx` escape, everything else passes
through. -/
def escapeChar (c : Char) : List Char :=
  if c = '"' then ['\\', '"']
  else if c = '\\' then ['\\', '\\']
  else if c.toNat = 8 then ['\\', 'b']
  else if c.toNat = 9 then ['\\', 't']
  else if c.toNat = 10 then ['\\', 'n']
  else if c.toNat = 12 then ['\\', 'f']
  else if c.toNat = 13 then ['\\', 'r']
  else if c.toNat < 32 then
    ['\\', 'u', '0', '0', hexDig (c.toNat / 16), hexDig (c.toNat % 16)]
  else [c]

/-- Escape every character of a string body. -/
def escList : List Char → List Char
  | [] => []
  | c :: cs => escapeChar c ++ escList cs

/-- The digit character for a value below 10. -/
def digitChar : Nat → Char
  | 0 => '0' | 1 => '1' | 2 => '2' | 3 => '3' | 4 => '4'
  | 5 => '5' | 6 => '6' | 7 => '7' | 8 => '8' | _ => '9'

/-- The decimal digits of a natural number, most significant first. -/
def natDigits (n : Nat) : List Char :=
  if h : n < 10 then [digitChar n]
  else natDigits (n / 10) ++ [digitChar (n % 10)]
decreasing_by exact Nat.div_lt_self (by omega) (by omega)

/-- The decimal digits of `n`, left-padded with zeros to width `f`
(well-formed whenever `n < 10 ^ f`). -/
def padDigits (f n : Nat) : List Char :=
  List.replicate (f - (natDigits n).length) '0' ++ natDigits n

/-- The decimal notation of the absolute part of a number: the integer
digits, then a point and exactly `fracDigits` fraction digits when the
number is not integral — the shape `JSON.stringify` prints for doubles
such as `66.7` or `0.85`. -/
def emitNumAbs (a f : Nat) : List Char :=
  if f = 0 then natDigits a
  else natDigits (a / 10 ^ f) ++ '.' :: padDigits f (a % 10 ^ f)

/-- The decimal notation of a JSON number as emitted by `JSON.stringify`:
an optional minus sign followed by the absolute decimal notation. -/
def emitNum (q : JsonNumber) : List Char :=
  if q.mantissa < 0 then '-' :: emitNumAbs q.mantissa.natAbs q.fracDigits
  else emitNumAbs q.mantissa.natAbs q.fracDigits

mutual

/-- Models `JSON.stringify(v, null, 2)` at the given current indentation width:
atoms print on one line; non-empty arrays and objects open on their own
line, print members indented two further spaces, and close at the current
indentation (ECMA-262 SerializeJSONArray / SerializeJSONObject with a
two-space gap). -/
def emitV : Json → Nat → List Char
  | Json.null, _ => 'n' :: 'u' :: 'l' :: 'l' :: []
  | Json.bool true, _ => 't' :: 'r' :: 'u' :: 'e' :: []
  | Json.bool false, _ => 'f' :: 'a' :: 'l' :: 's' :: 'e' :: []
  | Json.num q, _ => emitNum q
  | Json.str s, _ => '"' :: escList s.data ++ ['"']
  | Json.arr [], _ => ['[', ']']
  | Json.arr (v :: l), ind =>
      '[' :: '\n' :: emitElems (v :: l) (ind + 2) ++
        '\n' :: spacesList ind ++ [']']
  | Json.obj [], _ => [lbraceChar, rbraceChar]
  | Json.obj (m :: ms), ind =>
      lbraceChar :: '\n' :: emitMembers (m :: ms) (ind + 2) ++
        '\n' :: spacesList ind ++ [rbraceChar]

/-- The comma-newline separated element lines of a non-empty array. -/
def emitElems : List Json → Nat → List Char
  | [], _ => []
  | [v], ind => spacesList ind ++ emitV v ind
  | v :: l, ind =>
      spacesList ind ++ emitV v ind ++ ',' :: '\n' :: emitElems l ind

/-- The comma-newline separated `"key": value` lines of a non-empty object. -/
def emitMembers : List (String × Json) → Nat → List Char
  | [], _ => []
  | [(k, v)], ind =>
      spacesList ind ++ '"' :: escList k.data ++ '"' :: ':' :: ' ' :: emitV v ind
  | (k, v) :: ms, ind =>
      spacesList ind ++ '"' :: escList k.data ++ '"' :: ':' :: ' ' :: emitV v ind ++
        ',' :: '\n' :: emitMembers ms ind

end

/-- Models `JSON.stringify(v, null, 2)` as a string. -/
def jsonStringify (v : Json) : String := String.mk (emitV v 0)

/-- Skip insignificant whitespace. -/
def skipWs : List Char → List Char
  | [] => []
  | c :: cs => if isWsChar c then skipWs cs else c :: cs

/-- Consume a maximal run of decimal digits, accumulating their value. -/
def parseDigitsAux (acc : Nat) : List Char → Nat × List Char
  | [] => (acc, [])
  | c :: cs =>
      if c.isDigit then parseDigitsAux (acc * 10 + (c.toNat - 48)) cs
      else (acc, c :: cs)

/-- Parse the body of a JSON string after the opening quote, accumulating
decoded characters in reverse; handles the two-character escapes and
`\uXXXX`. -/
def parseStrAux (acc : List Char) : List Char → Option (String × List Char)
  | [] => none
  | c :: cs =>
    if c = '"' then some (String.mk acc.reverse, cs)
    else if c = '\\' then
      match cs with
      | [] => none
      | 'u' :: h1 :: h2 :: h3 :: h4 :: cs3 =>
        match hexVal h1, hexVal h2, hexVal h3, hexVal h4 with
        | some a, some b, some c3, some d =>
            parseStrAux (Char.ofNat (a * 4096 + b * 256 + c3 * 16 + d) :: acc) cs3
        | _, _, _, _ => none
      | e :: cs2 =>
        if e = '"' then parseStrAux ('"' :: acc) cs2
        else if e = '\\' then parseStrAux ('\\' :: acc) cs2
        else if e = '/' then parseStrAux ('/' :: acc) cs2
        else if e = 'b' then parseStrAux (bsChar :: acc) cs2
        else if e = 'f' then parseStrAux (ffChar :: acc) cs2
        else if e = 'n' then parseStrAux ('\n' :: acc) cs2
        else if e = 'r' then parseStrAux ('\r' :: acc) cs2
        else if e = 't' then parseStrAux ('\t' :: acc) cs2
        else none
    else parseStrAux (c :: acc) cs

/-- Does the input start with a character that would extend a numeric
literal — a digit, a decimal point, or an exponent marker? -/
def headNumExt : List Char → Bool
  | [] => false
  | c :: _ => c.isDigit || c = '.' || c = 'e' || c = 'E'

/-- Consume a maximal run of fraction digits, accumulating their value and
counting how many were read. -/
def parseFracAux (acc cnt : Nat) : List Char → Nat × Nat × List Char
  | [] => (acc, cnt, [])
  | c :: cs =>
      if c.isDigit then parseFracAux (acc * 10 + (c.toNat - 48)) (cnt + 1) cs
      else (acc, cnt, c :: cs)

/-- Read an optional exponent part `e`/`E` with optional sign and at least
one digit; without a marker the exponent is zero and nothing is consumed. -/
def parseExp : List Char → Option (Int × List Char)
  | [] => some (0, [])
  | c :: r =>
    if c = 'e' ∨ c = 'E' then
      match r with
      | '-' :: c2 :: r2 =>
          if c2.isDigit then
            some (-((parseDigitsAux 0 (c2 :: r2)).1 : Int),
              (parseDigitsAux 0 (c2 :: r2)).2)
          else none
      | '+' :: c2 :: r2 =>
          if c2.isDigit then
            some (((parseDigitsAux 0 (c2 :: r2)).1 : Int),
              (parseDigitsAux 0 (c2 :: r2)).2)
          else none
      | c2 :: r2 =>
          if c2.isDigit then
            some (((parseDigitsAux 0 (c2 :: r2)).1 : Int),
              (parseDigitsAux 0 (c2 :: r2)).2)
          else none
      | [] => none
    else some (0, c :: r)

/-- Assemble the parts of a numeric literal into an exact `JsonNumber`:
the integer and fraction digits give `mantissa × 10^(-fracDigits)`, the
exponent shifts the decimal point, and the sign is applied last. -/
def mkNumber (neg : Bool) (intVal frac fcnt : Nat) (ex : Int) : JsonNumber :=
  let m0 : Nat := intVal * 10 ^ fcnt + frac
  let e : Int := ex - (fcnt : Int)
  let q : JsonNumber :=
    if 0 ≤ e then { mantissa := (m0 : Int) * 10 ^ e.toNat, fracDigits := 0 }
    else { mantissa := (m0 : Int), fracDigits := (-e).toNat }
  if neg then { q with mantissa := -q.mantissa } else q

/-- Read an optional fraction part: a decimal point followed by at least
one digit yields its value and digit count; no point yields an empty
fraction; a point with no digit is a syntax error. -/
def parseFracPart : List Char → Option (Nat × Nat × List Char)
  | '.' :: c1 :: r1 => if c1.isDigit then some (parseFracAux 0 0 (c1 :: r1)) else none
  | '.' :: [] => none
  | r0 => some (0, 0, r0)

/-- Read a numeric literal starting at its first digit: integer digits, an
optional fraction (at least one digit after the point), and an optional
exponent, as in `JSON.parse`. -/
def parseNumber (neg : Bool) (s : List Char) : Option (JsonNumber × List Char) :=
  match parseFracPart (parseDigitsAux 0 s).2 with
  | none => none
  | some (frac, fcnt, r1) =>
    match parseExp r1 with
    | some (ex, r2) => some (mkNumber neg (parseDigitsAux 0 s).1 frac fcnt ex, r2)
    | none => none

mutual

/-- Recursive-descent JSON value reading, as in `JSON.parse`: skip
whitespace, then dispatch on the first character.  `fuel` bounds the
recursion depth. -/
def parseVal : Nat → List Char → Option (Json × List Char)
  | 0, _ => none
  | fuel + 1, input =>
    match skipWs input with
    | [] => none
    | c :: r =>
      if c = 'n' then
        match r with
        | 'u' :: 'l' :: 'l' :: r2 => some (Json.null, r2)
        | _ => none
      else if c = 't' then
        match r with
        | 'r' :: 'u' :: 'e' :: r2 => some (Json.bool true, r2)
        | _ => none
      else if c = 'f' then
        match r with
        | 'a' :: 'l' :: 's' :: 'e' :: r2 => some (Json.bool false, r2)
        | _ => none
      else if c = '"' then
        (parseStrAux [] r).map (fun p => (Json.str p.1, p.2))
      else if c = '[' then
        match skipWs r with
        | ']' :: r2 => some (Json.arr [], r2)
        | _ => (parseItems fuel r).map (fun p => (Json.arr p.1, p.2))
      else if c = lbraceChar then
        match skipWs r with
        | [] => none
        | c2 :: r2 =>
          if c2 = rbraceChar then some (Json.obj [], r2)
          else (parseMembers fuel r).map (fun p => (Json.obj p.1, p.2))
      else if c = '-' then
        match r with
        | [] => none
        | c2 :: _ =>
          if c2.isDigit then
            (parseNumber true r).map (fun p => (Json.num p.1, p.2))
          else none
      else if c.isDigit then
        (parseNumber false (c :: r)).map (fun p => (Json.num p.1, p.2))
      else none

/-- Read the elements of a non-empty array body up to the closing bracket. -/
def parseItems : Nat → List Char → Option (List Json × List Char)
  | 0, _ => none
  | fuel + 1, input =>
    match parseVal fuel input with
    | none => none
    | some (v, r) =>
      match skipWs r with
      | ',' :: r2 => (parseItems fuel r2).map (fun p => (v :: p.1, p.2))
      | ']' :: r2 => some ([v], r2)
      | _ => none

/-- Read the members of a non-empty object body up to the closing brace. -/
def parseMembers : Nat → List Char → Option (List (String × Json) × List Char)
  | 0, _ => none
  | fuel + 1, input =>
    match skipWs input with
    | [] => none
    | c :: r =>
      if c = '"' then
        match parseStrAux [] r with
        | none => none
        | some (k, r1) =>
          match skipWs r1 with
          | ':' :: r2 =>
            match parseVal fuel r2 with
            | none => none
            | some (v, r3) =>
              match skipWs r3 with
              | ',' :: r4 => (parseMembers fuel r4).map (fun p => ((k, v) :: p.1, p.2))
              | c4 :: r4 => if c4 = rbraceChar then some ([(k, v)], r4) else none
              | [] => none
          | _ => none
      else none

end

/-- Models `JSON.parse` of a whole string: parse one value with a depth budget that
the input length always covers, and require only whitespace to remain. -/
def jsonParse (s : String) : Option Json :=
  match parseVal (s.length + 1) s.data with
  | some (v, r) => if skipWs r = [] then some v else none
  | none => none

/-- The export handler's written file content (useProxies.ts lines 129–137):
for `json` the response data is stringified with a two-space gap; for the
other formats the response data is already a string and is written as is. -/
def exportContent (format : String) (data : Json) : String :=
  if format = "json" then jsonStringify data
  else match data with
       | Json.str s => s
       | _ => ""

/-- Does the input start with a decimal digit?  (Used to state that the
remainder following an emitted number cannot extend the number.) -/
def headIsDigit : List Char → Bool
  | [] => false
  | c :: _ => c.isDigit

mutual

/-- A fuel measure for a JSON value: enough parser depth to read it. -/
def sizeJ : Json → Nat
  | Json.null => 1
  | Json.bool _ => 1
  | Json.num _ => 1
  | Json.str _ => 1
  | Json.arr [] => 1
  | Json.arr (v :: l) => 1 + sizeL (v :: l)
  | Json.obj [] => 1
  | Json.obj (m :: ms) => 1 + sizeM (m :: ms)

/-- Fuel measure for an array's element list. -/
def sizeL : List Json → Nat
  | [] => 0
  | v :: l => 1 + sizeJ v + sizeL l

/-- Fuel measure for an object's member list. -/
def sizeM : List (String × Json) → Nat
  | [] => 0
  | (_, v) :: ms => 1 + sizeJ v + sizeM ms

end

/-- The replayed original request after a successful refresh: the `_retry`
marker set and the fresh access token attached (source lines 47, 56, 58). -/
def replayCfg (st : ClientState) (cfg : ReqCfg) (access : String) : ReqCfg :=
  { withAuth st cfg with retried := true, authHeader := some access }

/-- The client state after a 401, a successful refresh and the replay
dispatch: fresh token stored, three requests logged. -/
def replayedState (st : ClientState) (cfg : ReqCfg) (access : String) : ClientState :=
  { st with authToken := some access,
            sentLog := cfg.url :: refreshUrl :: cfg.url :: st.sentLog }

/-! ## Theorems -/

/-- Helper: filtering never lengthens a list. -/
theorem filter_length_le {α : Type} (p : α → Bool) (l : List α) :
    (l.filter p).length ≤ l.length :=
  List.length_filter_le p l

/-- Helper: merging a candidate into a row keeps the row's dedup key. -/
theorem mergeProxy_key (p : PoolProxy) (c : Candidate) :
    (mergeProxy p c).key = p.key := rfl

/-- Helper: the fresh row of a candidate carries the candidate's key. -/
theorem toRow_key (c : Candidate) : c.toRow.key = c.key := rfl

/-- Helper: one keyed upsert preserves key uniqueness. -/
theorem upsertProxy_uniqueKeys {pool : List PoolProxy} (c : Candidate)
    (h : UniqueKeys pool) : UniqueKeys (upsertProxy pool c) := by
  unfold upsertProxy
  have hkey : ∀ p : PoolProxy,
      (if p.key = c.key then mergeProxy p c else p).key = p.key := by
    intro p
    by_cases hp : p.key = c.key <;> simp [hp, mergeProxy_key]
  by_cases hmem : pool.any (fun p => p.key = c.key) = true
  · rw [if_pos hmem]
    unfold UniqueKeys at h ⊢
    rw [List.pairwise_map]
    refine h.imp ?_
    intro a b hab
    rw [hkey a, hkey b]
    exact hab
  · rw [if_neg hmem]
    unfold UniqueKeys at h ⊢
    rw [List.pairwise_append]
    refine ⟨h, List.pairwise_singleton _ _, ?_⟩
    intro a ha b hb
    simp only [List.mem_singleton] at hb
    subst hb
    rw [toRow_key]
    simp only [List.any_eq_true, decide_eq_true_eq] at hmem
    intro hk
    exact hmem ⟨a, ha, hk⟩

/-- Helper: folding any candidate sequence through the upsert preserves key
uniqueness. -/
theorem upsertAll_uniqueKeys (cs : List Candidate) :
    ∀ pool : List PoolProxy, UniqueKeys pool → UniqueKeys (upsertAll pool cs) := by
  induction cs with
  | nil => intro pool h; exact h
  | cons c cs ih =>
      intro pool h
      exact ih (upsertProxy pool c) (upsertProxy_uniqueKeys c h)

/-- C2: after any sequence of fetch runs — an arbitrary interleaving of the
candidates the concurrent runs discovered, each folded into the pool through
the atomic keyed upsert — no two pool rows share the same
`(address, port, protocol)` key, provided the starting pool already had
unique keys (the empty pool trivially does). -/
theorem C2_dedup_key_unique (pool : List PoolProxy) (cs : List Candidate)
    (h : UniqueKeys pool) : UniqueKeys (upsertAll pool cs) :=
  upsertAll_uniqueKeys cs pool h

/-- C2 witness: two concurrent discoveries of the same endpoint
`(1.2.3.4, 8080, http)` from different sources leave a pool with unique keys. -/
theorem C2_dedup_key_unique_witness :
    UniqueKeys (upsertAll []
      [ { ip := "1.2.3.4", port := 8080, proxy_type := ProxyType.http
          tier := 1, source_name := "webshare" }
      , { ip := "1.2.3.4", port := 8080, proxy_type := ProxyType.http
          tier := 2, source_name := "publiclist" }
      , { ip := "5.6.7.8", port := 3128, proxy_type := ProxyType.socks5
          tier := 3, source_name := "fallback" } ]) :=
  C2_dedup_key_unique [] _ (by unfold UniqueKeys; exact List.Pairwise.nil)

/-- C3: every completed job satisfies `proxies_working ≤ proxies_found` and
`sources_successful ≤ sources_tried`. -/
theorem C3_completed_job_counters (id : Nat) (jt : JobType) (srcs : List SourceRun)
    (validate : Bool) (works : PoolProxy → Bool) (timeout max_workers : Int)
    (hdone : (runJob id jt srcs validate works timeout max_workers).status =
      JobStatus.completed) :
    (runJob id jt srcs validate works timeout max_workers).proxies_working ≤
      (runJob id jt srcs validate works timeout max_workers).proxies_found ∧
    (runJob id jt srcs validate works timeout max_workers).sources_successful ≤
      (runJob id jt srcs validate works timeout max_workers).sources_tried := by
  clear hdone
  unfold runJob
  constructor
  · cases validate with
    | true => simpa using filter_length_le works (mergedSet srcs)
    | false => simp
  · simpa using filter_length_le (fun s => s.success) srcs

/-- C3 witness: a concrete completed run with one failing source, one
successful source, and a validator that rejects one candidate. -/
theorem C3_completed_job_counters_witness :
    (runJob 1 JobType.unified
      [ { success := false, candidates := [] }
      , { success := true
          candidates :=
            [ { ip := "1.2.3.4", port := 8080, proxy_type := ProxyType.http
                tier := 2, source_name := "publiclist" }
            , { ip := "5.6.7.8", port := 3128, proxy_type := ProxyType.socks5
                tier := 2, source_name := "publiclist" } ] } ]
      true (fun p => p.port = 8080) 10 30).proxies_working ≤
      (runJob 1 JobType.unified
      [ { success := false, candidates := [] }
      , { success := true
          candidates :=
            [ { ip := "1.2.3.4", port := 8080, proxy_type := ProxyType.http
                tier := 2, source_name := "publiclist" }
            , { ip := "5.6.7.8", port := 3128, proxy_type := ProxyType.socks5
                tier := 2, source_name := "publiclist" } ] } ]
      true (fun p => p.port = 8080) 10 30).proxies_found ∧
    (runJob 1 JobType.unified
      [ { success := false, candidates := [] }
      , { success := true
          candidates :=
            [ { ip := "1.2.3.4", port := 8080, proxy_type := ProxyType.http
                tier := 2, source_name := "publiclist" }
            , { ip := "5.6.7.8", port := 3128, proxy_type := ProxyType.socks5
                tier := 2, source_name := "publiclist" } ] } ]
      true (fun p => p.port = 8080) 10 30).sources_successful ≤
      (runJob 1 JobType.unified
      [ { success := false, candidates := [] }
      , { success := true
          candidates :=
            [ { ip := "1.2.3.4", port := 8080, proxy_type := ProxyType.http
                tier := 2, source_name := "publiclist" }
            , { ip := "5.6.7.8", port := 3128, proxy_type := ProxyType.socks5
                tier := 2, source_name := "publiclist" } ] } ]
      true (fun p => p.port = 8080) 10 30).sources_tried :=
  C3_completed_job_counters 1 JobType.unified _ true _ 10 30 (by rfl)

/-- C5: whatever raw values a job request carries — numeric, non-numeric or
absent — the job executes with a worker count inside 1–100 and a per-attempt
timeout inside 5–60 seconds. -/
theorem C5_options_clamped (w t : OptVal) :
    1 ≤ effectiveMaxWorkers w ∧ effectiveMaxWorkers w ≤ 100 ∧
    5 ≤ effectiveTimeout t ∧ effectiveTimeout t ≤ 60 := by
  cases w <;> cases t <;>
    simp only [effectiveMaxWorkers, effectiveTimeout, clampInt, le_max_iff,
      max_le_iff, min_le_iff, le_min_iff] <;> omega

/-- C6: the three client purge calls each carry the query parameter
`confirm=yes`, the spec-modelled purge gate acts on exactly those requests,
acts only when the confirmation flag is supplied, and does not act on a
request without parameters. -/
theorem C6_purges_confirmation_gated :
    lookupParam deleteAllProxiesReq.params "confirm" = some "yes" ∧
    lookupParam clearAllJobsReq.params "confirm" = some "yes" ∧
    lookupParam clearAllTestsReq.params "confirm" = some "yes" ∧
    purgeActs deleteAllProxiesReq.params = true ∧
    purgeActs clearAllJobsReq.params = true ∧
    purgeActs clearAllTestsReq.params = true ∧
    (∀ ps, purgeActs ps = true → lookupParam ps "confirm" = some "yes") ∧
    purgeActs [] = false := by
  refine ⟨rfl, rfl, rfl, rfl, rfl, rfl, ?_, rfl⟩
  intro ps h
  simpa [purgeActs] using h

/-- C8: in the expanded job detail, the error panel renders exactly when
`error_message` is non-empty, and when `log_messages` is non-empty the
rendered log is exactly the last `min(10, length)` entries — a suffix, so
original append order is preserved — and nothing renders for an empty log. -/
theorem C8_expanded_detail_rendering (j : FetchJob) :
    (errorPanelRendered j = true ↔ j.error_message ≠ "") ∧
    (j.log_messages ≠ [] →
      renderedLogMessages j <:+ j.log_messages ∧
      (renderedLogMessages j).length = min 10 j.log_messages.length) ∧
    (j.log_messages = [] → renderedLogMessages j = []) := by
  refine ⟨by simp [errorPanelRendered], ?_, ?_⟩
  · intro hne
    have hpos : 0 < j.log_messages.length := List.length_pos.mpr hne
    constructor
    · simp only [renderedLogMessages, hpos, if_pos, sliceLastTen]
      exact List.drop_suffix _ _
    · simp only [renderedLogMessages, hpos, if_pos, sliceLastTen, List.length_drop]
      omega
  · intro he
    simp [renderedLogMessages, he]

/-- C10: a success rate of exactly 0 and a response time of exactly 0 render
as `'-'`, indistinguishable from a missing response time; every nonzero
success rate renders as `toFixed(1)` plus `%` and every nonzero response
time as `toFixed(2)` plus `s`. -/
theorem C10_zero_renders_dash :
    renderSuccessRateCell 0 = "-" ∧
    renderResponseTimeCell (some 0) = "-" ∧
    renderResponseTimeCell none = "-" ∧
    renderResponseTimeCell (some 0) = renderResponseTimeCell none ∧
    (∀ r : ℚ, r ≠ 0 → renderSuccessRateCell r = jsToFixed 1 r ++ "%") ∧
    (∀ t : ℚ, t ≠ 0 → renderResponseTimeCell (some t) = jsToFixed 2 t ++ "s") := by
  refine ⟨rfl, rfl, rfl, rfl, ?_, ?_⟩
  · intro r hr
    simp [renderSuccessRateCell, hr]
  · intro t ht
    simp [renderResponseTimeCell, ht]

/-- Helper: the request interceptor changes no url. -/
theorem withAuth_url (st : ClientState) (cfg : ReqCfg) :
    (withAuth st cfg).url = cfg.url := by
  cases h : st.authToken <;> simp [withAuth, h]

/-- Helper: the request interceptor changes no `_retry` marker. -/
theorem withAuth_retried (st : ClientState) (cfg : ReqCfg) :
    (withAuth st cfg).retried = cfg.retried := by
  cases h : st.authToken <;> simp [withAuth, h]

/-- Helper: under a server that answers every request with 401 — a stale
refresh token, say — any not-yet-retried request with a stored refresh token
never settles: each level awaits a fresh refresh request, which is itself
intercepted. -/
theorem send_alwaysH401_diverges :
    ∀ (fuel : Nat) (st : ClientState) (cfg : ReqCfg),
      (∃ rt, st.refreshToken = some rt) → cfg.retried = false →
      send alwaysH401 fuel st cfg = none := by
  intro fuel
  induction fuel with
  | zero => intro st cfg _ _; rfl
  | succ n ih =>
      intro st cfg hrt hret
      obtain ⟨rt, hrt⟩ := hrt
      have hretried : (withAuth st cfg).retried = false :=
        (withAuth_retried st cfg).trans hret
      have hinner :
          send alwaysH401 n
            { authToken := st.authToken, refreshToken := some rt
              userData := st.userData, redirectedToLogin := st.redirectedToLogin
              sentLog := (withAuth st cfg).url :: st.sentLog }
            (refreshCfg rt) = none :=
        ih _ _ ⟨rt, rfl⟩ rfl
      simp [send, alwaysH401, hretried, hrt, hinner]

/-- C9 counterexample: the claim's "never enters an unbounded refresh–retry
loop" is false.  With a stored (stale) refresh token and a server that
answers 401 to every request — the refresh endpoint included, as a backend
does for an invalid refresh token — no finite depth of nested awaited
requests settles the original request: the interceptor keeps issuing fresh
refresh requests, each of which is itself intercepted and refreshes again. -/
theorem C9_counterexample : ¬ InterceptorAlwaysSettles := by
  intro h
  obtain ⟨fuel, hs⟩ := h alwaysH401 staleState (plainReq "/proxies/")
  rw [send_alwaysH401_diverges fuel staleState (plainReq "/proxies/")
    ⟨"stale", rfl⟩ rfl] at hs
  exact Bool.false_ne_true hs

/-- Helper: a plainly successful request makes exactly one dispatch. -/
theorem send3_ok (server : ReqCfg → RespKind) (st : ClientState) (cfg : ReqCfg)
    (p : String) (h : server (withAuth st cfg) = RespKind.ok p) :
    send server 3 st cfg =
      some ({ st with sentLog := cfg.url :: st.sentLog }, Outcome.success p) := by
  simp [send, h, withAuth_url]

/-- Helper: a non-401 error makes exactly one dispatch and rejects. -/
theorem send3_err (server : ReqCfg → RespKind) (st : ClientState) (cfg : ReqCfg)
    (h : server (withAuth st cfg) = RespKind.otherErr) :
    send server 3 st cfg =
      some ({ st with sentLog := cfg.url :: st.sentLog }, Outcome.failure) := by
  simp [send, h, withAuth_url]

/-- Helper: a first 401 with no stored refresh token clears auth, redirects
and rejects after one dispatch. -/
theorem send3_noRefresh (server : ReqCfg → RespKind) (st : ClientState)
    (cfg : ReqCfg) (hret : cfg.retried = false)
    (h : server (withAuth st cfg) = RespKind.http401)
    (hrt : st.refreshToken = none) :
    send server 3 st cfg =
      some (clearAuth { st with sentLog := cfg.url :: st.sentLog },
        Outcome.failure) := by
  have hretried : (withAuth st cfg).retried = false :=
    (withAuth_retried st cfg).trans hret
  simp [send, h, hrt, hretried, withAuth_url]

/-- Helper: a first 401 whose awaited refresh rejects with a non-401 error
clears auth, redirects and rejects; two dispatches happen. -/
theorem send3_refreshFails (server : ReqCfg → RespKind) (st : ClientState)
    (cfg : ReqCfg) (rt : String) (hret : cfg.retried = false)
    (h : server (withAuth st cfg) = RespKind.http401)
    (hrt : st.refreshToken = some rt)
    (h2 : server (withAuth st (refreshCfg rt)) = RespKind.otherErr) :
    send server 3 st cfg =
      some (clearAuth { st with sentLog := refreshUrl :: cfg.url :: st.sentLog },
        Outcome.failure) := by
  cases hauth : st.authToken with
  | none =>
      simp only [withAuth, refreshCfg, hauth, hret] at h h2
      simp [send, withAuth, hauth, hrt, hret, h, h2, refreshCfg]
  | some tok =>
      simp only [withAuth, refreshCfg, hauth, hret] at h h2
      simp [send, withAuth, hauth, hrt, hret, h, h2, refreshCfg]

/-- Helper: a first 401 whose awaited refresh succeeds stores the fresh
token and replays the original request once, marked retried; the replay's
response settles the caller directly (a second 401 then clears and
rejects). -/
theorem send3_refreshOk (server : ReqCfg → RespKind) (st : ClientState)
    (cfg : ReqCfg) (rt access : String) (hret : cfg.retried = false)
    (h : server (withAuth st cfg) = RespKind.http401)
    (hrt : st.refreshToken = some rt)
    (h2 : server (withAuth st (refreshCfg rt)) = RespKind.ok access) :
    send server 3 st cfg =
      match server (replayCfg st cfg access) with
      | RespKind.ok q => some (replayedState st cfg access, Outcome.success q)
      | RespKind.otherErr => some (replayedState st cfg access, Outcome.failure)
      | RespKind.http401 =>
          some (clearAuth (replayedState st cfg access), Outcome.failure) := by
  cases hauth : st.authToken with
  | none =>
      simp only [withAuth, refreshCfg, hauth, hret] at h h2
      simp only [replayCfg, replayedState, withAuth, hauth]
      cases h3 : server { cfg with retried := true, authHeader := some access } with
      | ok q =>
          simp [send, withAuth, hauth, hrt, hret, h, h2, h3, refreshCfg]
      | http401 =>
          simp [send, withAuth, hauth, hrt, hret, h, h2, h3, refreshCfg, clearAuth]
      | otherErr =>
          simp [send, withAuth, hauth, hrt, hret, h, h2, h3, refreshCfg]
  | some tok =>
      simp only [withAuth, refreshCfg, hauth, hret] at h h2
      simp only [replayCfg, replayedState, withAuth, hauth]
      cases h3 : server { cfg with retried := true, authHeader := some access } with
      | ok q =>
          simp [send, withAuth, hauth, hrt, hret, h, h2, h3, refreshCfg]
      | http401 =>
          simp [send, withAuth, hauth, hrt, hret, h, h2, h3, refreshCfg, clearAuth]
      | otherErr =>
          simp [send, withAuth, hauth, hrt, hret, h, h2, h3, refreshCfg]

/-- C9 amended: provided the refresh endpoint itself never answers 401, the
interceptor settles every request within three nested awaited requests; the
`_retry` flag bounds dispatches of the original url by two (the original and
at most one replay); with no stored refresh token a 401 clears the three
auth keys and redirects to `/login`; when the awaited refresh itself fails,
the catch clears the keys and redirects; and when the refresh succeeds after
a first 401, the original url is dispatched exactly twice.  Without that
proviso the code loops unboundedly, as the counterexample shows. -/
theorem C9_amended_retry_bounded (server : ReqCfg → RespKind) (st : ClientState)
    (cfg : ReqCfg)
    (hsrv : ∀ c : ReqCfg, c.url = refreshUrl → server c ≠ RespKind.http401)
    (hurl : cfg.url ≠ refreshUrl) (hlog : st.sentLog = [])
    (hret : cfg.retried = false) :
    (send server 3 st cfg).isSome = true ∧
    (∀ st' out, send server 3 st cfg = some (st', out) →
      countUrl cfg.url st'.sentLog ≤ 2) ∧
    (st.refreshToken = none → server (withAuth st cfg) = RespKind.http401 →
      ∃ st', send server 3 st cfg = some (st', Outcome.failure) ∧
        st'.authToken = none ∧ st'.refreshToken = none ∧ st'.userData = none ∧
        st'.redirectedToLogin = true) ∧
    (∀ rt, st.refreshToken = some rt → server (withAuth st cfg) = RespKind.http401 →
      server (withAuth st (refreshCfg rt)) = RespKind.otherErr →
      ∃ st', send server 3 st cfg = some (st', Outcome.failure) ∧
        st'.authToken = none ∧ st'.refreshToken = none ∧ st'.userData = none ∧
        st'.redirectedToLogin = true) ∧
    (∀ rt access, st.refreshToken = some rt →
      server (withAuth st cfg) = RespKind.http401 →
      server (withAuth st (refreshCfg rt)) = RespKind.ok access →
      ∀ st' out, send server 3 st cfg = some (st', out) →
        countUrl cfg.url st'.sentLog = 2) := by
  have hru2 : refreshUrl ≠ cfg.url := fun hh => hurl hh.symm
  rcases hresp : server (withAuth st cfg) with p | _ | _
  · -- plain success
    have hs := send3_ok server st cfg p hresp
    refine ⟨by simp [hs], ?_, ?_, ?_, ?_⟩
    · intro st' out h
      rw [hs] at h
      injection h with h1
      cases h1
      simp [countUrl, hlog]
    · intro _ h401
      exact absurd h401 (by simp)
    · intro rt _ h401
      exact absurd h401 (by simp)
    · intro rt access _ h401
      exact absurd h401 (by simp)
  · -- first 401 of the original request
    rcases hrt : st.refreshToken with _ | rt
    · -- no refresh token stored
      have hs := send3_noRefresh server st cfg hret hresp hrt
      refine ⟨by simp [hs], ?_, ?_, ?_, ?_⟩
      · intro st' out h
        rw [hs] at h
        injection h with h1
        cases h1
        simp [countUrl, clearAuth, hlog]
      · intro _ _
        exact ⟨_, hs, rfl, rfl, rfl, rfl⟩
      · intro rt' hrt'
        exact absurd hrt' (by simp)
      · intro rt' access hrt'
        exact absurd hrt' (by simp)
    · -- refresh token stored: await the intercepted refresh request
      rcases hr2 : server (withAuth st (refreshCfg rt)) with access | _ | _
      · -- refresh succeeded: replay once
        have hs := send3_refreshOk server st cfg rt access hret hresp hrt hr2
        have hcount : ∀ st' out, send server 3 st cfg = some (st', out) →
            countUrl cfg.url st'.sentLog = 2 := by
          intro st' out h
          rw [hs] at h
          rcases h3 : server (replayCfg st cfg access) with q | _ | _ <;>
            rw [h3] at h <;> injection h with h1 <;> cases h1 <;>
            simp [countUrl, clearAuth, replayedState, hlog, hru2]
        have hsome : (send server 3 st cfg).isSome = true := by
          rw [hs]
          rcases h3 : server (replayCfg st cfg access) with q | _ | _ <;> simp
        refine ⟨hsome, fun st' out h => le_of_eq (hcount st' out h), ?_, ?_, ?_⟩
        · intro hnone
          exact absurd hnone (by simp)
        · intro rt' hrt' _ hother
          injection hrt' with he
          rw [← he] at hother
          rw [hr2] at hother
          exact absurd hother (by simp)
        · intro rt' access' hrt' _ _
          exact hcount
      · -- refresh endpoint answered 401: excluded by the proviso
        exact absurd hr2 (hsrv _ (withAuth_url st (refreshCfg rt)))
      · -- refresh rejected: catch clears auth and redirects
        have hs := send3_refreshFails server st cfg rt hret hresp hrt hr2
        refine ⟨by simp [hs], ?_, ?_, ?_, ?_⟩
        · intro st' out h
          rw [hs] at h
          injection h with h1
          cases h1
          simp [countUrl, clearAuth, hlog, hru2]
        · intro hnone
          exact absurd hnone (by simp)
        · intro rt' hrt' _ _
          exact ⟨_, hs, rfl, rfl, rfl, rfl⟩
        · intro rt' access hrt' _ hok
          injection hrt' with he
          rw [← he] at hok
          rw [hr2] at hok
          exact absurd hok (by simp)
  · -- plain non-401 error
    have hs := send3_err server st cfg hresp
    refine ⟨by simp [hs], ?_, ?_, ?_, ?_⟩
    · intro st' out h
      rw [hs] at h
      injection h with h1
      cases h1
      simp [countUrl, hlog]
    · intro _ h401
      exact absurd h401 (by simp)
    · intro rt _ h401
      exact absurd h401 (by simp)
    · intro rt access _ h401
      exact absurd h401 (by simp)

/-- C9 amended witness: a server whose refresh endpoint issues a fresh token
and which accepts the replayed request; the original request is dispatched
twice and settles. -/
theorem C9_amended_retry_bounded_witness :
    ((send (fun c => if c.url = refreshUrl then RespKind.ok "newtok"
        else if c.authHeader = some "newtok" then RespKind.ok "data"
        else RespKind.http401) 3 staleState (plainReq "/proxies/")).isSome = true) ∧
    countUrl "/proxies/" ["/proxies/", "/auth/token/refresh/", "/proxies/"] = 2 := by
  refine ⟨?_, by simp [countUrl, List.filter]⟩
  exact (C9_amended_retry_bounded
    (fun c => if c.url = refreshUrl then RespKind.ok "newtok"
      else if c.authHeader = some "newtok" then RespKind.ok "data"
      else RespKind.http401) staleState (plainReq "/proxies/")
    (fun c hc => by simp [hc])
    (by simp [plainReq, refreshUrl]) rfl rfl).1

/-- C1: for every Proxy, `success_rate` equals
`success_count/(success_count+failure_count)×100` when the denominator is
positive and 0 when it is 0, and always lies in `[0, 100]`. -/
theorem C1_success_rate_formula_and_bounds (s f : Nat) :
    (s + f = 0 → success_rate s f = 0) ∧
    (0 < s + f → success_rate s f = (s : ℚ) / ((s : ℚ) + (f : ℚ)) * 100) ∧
    0 ≤ success_rate s f ∧ success_rate s f ≤ 100 := by
  unfold success_rate
  by_cases h : s + f = 0
  · simp [h]
  · have hpos : 0 < s + f := Nat.pos_of_ne_zero h
    have hq : (0 : ℚ) < (s : ℚ) + (f : ℚ) := by
      have : (0 : ℚ) < ((s + f : Nat) : ℚ) := by exact_mod_cast hpos
      push_cast at this
      linarith
    have hle : (s : ℚ) ≤ (s : ℚ) + (f : ℚ) := by
      have : (0 : ℚ) ≤ (f : ℚ) := by positivity
      linarith
    have hdiv0 : 0 ≤ (s : ℚ) / ((s : ℚ) + (f : ℚ)) := by positivity
    have hdiv1 : (s : ℚ) / ((s : ℚ) + (f : ℚ)) ≤ 1 := by
      rw [div_le_one hq]
      exact hle
    refine ⟨fun hc => absurd hc h, fun _ => by simp [h], ?_, ?_⟩
    · simp only [h, if_false]
      positivity
    · simp only [h, if_false]
      nlinarith

/-- Helper: skipping whitespace stops at a non-whitespace head. -/
theorem skipWs_not_ws {c : Char} (l : List Char) (h : isWsChar c = false) :
    skipWs (c :: l) = c :: l := by
  simp [skipWs, h]

/-- Helper: whitespace prefixes are transparent to `skipWs`. -/
theorem skipWs_append (w : List Char) (l : List Char)
    (h : ∀ c ∈ w, isWsChar c = true) : skipWs (w ++ l) = skipWs l := by
  induction w with
  | nil => rfl
  | cons c w ih =>
      have hc : isWsChar c = true := h c (List.mem_cons_self c w)
      simp only [List.cons_append, skipWs, hc, if_true]
      exact ih (fun d hd => h d (List.mem_cons_of_mem c hd))

/-- Helper: every character of an indentation run is whitespace. -/
theorem spacesList_ws (n : Nat) : ∀ c ∈ spacesList n, isWsChar c = true := by
  intro c hc
  rw [spacesList, List.mem_replicate] at hc
  rw [hc.2]
  decide

/-- Helper: the digit characters are genuine digits decoding to their value. -/
theorem digitChar_props {d : Nat} (h : d < 10) :
    (digitChar d).isDigit = true ∧ (digitChar d).toNat - 48 = d := by
  interval_cases d <;> exact ⟨by decide, by decide⟩

/-- Helper: a digit character is none of the parser's dispatch characters
and is not whitespace. -/
theorem isDigit_props {c : Char} (h : c.isDigit = true) :
    c ≠ 'n' ∧ c ≠ 't' ∧ c ≠ 'f' ∧ c ≠ '"' ∧ c ≠ '[' ∧ c ≠ lbraceChar ∧
    c ≠ '-' ∧ isWsChar c = false ∧ c ≠ ']' ∧ c ≠ rbraceChar := by
  have hx : ∀ x : Char, x.isDigit = false → c ≠ x := by
    intro x hx he
    rw [he, hx] at h
    exact Bool.false_ne_true h
  have hw : isWsChar c = false := by
    have h1 : c ≠ ' ' := hx ' ' (by decide)
    have h2 : c ≠ '\n' := hx '\n' (by decide)
    have h3 : c ≠ '\t' := hx '\t' (by decide)
    have h4 : c ≠ '\r' := hx '\r' (by decide)
    simp [isWsChar, h1, h2, h3, h4]
  exact ⟨hx _ (by decide), hx _ (by decide), hx _ (by decide), hx _ (by decide),
    hx _ (by decide), hx _ (by decide), hx _ (by decide), hw,
    hx _ (by decide), hx _ (by decide)⟩

/-- Helper: a printed natural number starts with a digit character. -/
theorem natDigits_shape (n : Nat) :
    ∃ d l, natDigits n = digitChar d :: l ∧ d < 10 := by
  induction n using Nat.strong_induction_on with
  | _ n ih =>
      rw [natDigits]
      by_cases h : n < 10
      · exact ⟨n, [], by rw [dif_pos h], h⟩
      · have hd : n / 10 < n := Nat.div_lt_self (by omega) (by omega)
        obtain ⟨d, l, hl, hd10⟩ := ih (n / 10) hd
        exact ⟨d, l ++ [digitChar (n % 10)], by rw [dif_neg h, hl]; rfl, hd10⟩

/-- Helper: consuming an emitted natural number accumulates exactly its
value, scaled into the accumulator. -/
theorem parseDigitsAux_natDigits (n : Nat) :
    ∀ acc rest, parseDigitsAux acc (natDigits n ++ rest) =
      parseDigitsAux (acc * 10 ^ (natDigits n).length + n) rest := by
  induction n using Nat.strong_induction_on with
  | _ n ih =>
      intro acc rest
      by_cases h : n < 10
      · have hn : natDigits n = [digitChar n] := by rw [natDigits, dif_pos h]
        obtain ⟨hdig, hval⟩ := digitChar_props h
        rw [hn]
        simp only [List.cons_append, List.nil_append, parseDigitsAux, hdig,
          if_true, hval, List.length_singleton, pow_one]
        rfl
      · have hdlt : n / 10 < n := Nat.div_lt_self (by omega) (by omega)
        have hn : natDigits n = natDigits (n / 10) ++ [digitChar (n % 10)] := by
          rw [natDigits, dif_neg h]
        obtain ⟨hdig, hval⟩ := digitChar_props (Nat.mod_lt n (by omega))
        rw [hn, List.append_assoc, List.cons_append, List.nil_append,
          ih (n / 10) hdlt]
        simp only [parseDigitsAux, hdig, if_true, hval]
        have harith : (acc * 10 ^ (natDigits (n / 10)).length + n / 10) * 10 + n % 10 =
            acc * 10 ^ (natDigits (n / 10) ++ [digitChar (n % 10)]).length + n := by
          rw [List.length_append, List.length_singleton, pow_succ]
          have hmod : n / 10 * 10 + n % 10 = n := by omega
          calc (acc * 10 ^ (natDigits (n / 10)).length + n / 10) * 10 + n % 10
              = acc * 10 ^ (natDigits (n / 10)).length * 10 +
                  (n / 10 * 10 + n % 10) := by ring
            _ = acc * (10 ^ (natDigits (n / 10)).length * 10) + n := by
                  rw [hmod, mul_assoc]
        rw [harith]

/-- Helper: digit consumption stops at a non-digit boundary. -/
theorem parseDigitsAux_stop (a : Nat) (rest : List Char)
    (h : headIsDigit rest = false) : parseDigitsAux a rest = (a, rest) := by
  cases rest with
  | nil => rfl
  | cons c t =>
      simp only [headIsDigit] at h
      simp [parseDigitsAux, h]

/-- Helper: parsing an emitted natural number yields it back, up to a
non-digit boundary. -/
theorem parseDigits_roundtrip (n : Nat) (rest : List Char)
    (h : headIsDigit rest = false) :
    parseDigitsAux 0 (natDigits n ++ rest) = (n, rest) := by
  rw [parseDigitsAux_natDigits, parseDigitsAux_stop _ _ h, Nat.zero_mul,
    Nat.zero_add]

/-- Helper: hex digits decode to their value. -/
theorem hexVal_hexDig {x : Nat} (h : x < 16) : hexVal (hexDig x) = some x := by
  interval_cases x <;> decide

/-- Helper: one parsing step past the closing quote. -/
theorem pS_quote (acc rest : List Char) :
    parseStrAux acc ('"' :: rest) = some (String.mk acc.reverse, rest) := by
  rw [parseStrAux.eq_def]
  simp

/-- Helper: one parsing step past an escaped quote. -/
theorem pS_esc_quote (acc rest : List Char) :
    parseStrAux acc ('\\' :: '"' :: rest) = parseStrAux ('"' :: acc) rest := by
  rw [parseStrAux.eq_def]
  simp

/-- Helper: one parsing step past an escaped backslash. -/
theorem pS_esc_backslash (acc rest : List Char) :
    parseStrAux acc ('\\' :: '\\' :: rest) = parseStrAux ('\\' :: acc) rest := by
  rw [parseStrAux.eq_def]
  simp

/-- Helper: one parsing step past an escaped backspace. -/
theorem pS_esc_b (acc rest : List Char) :
    parseStrAux acc ('\\' :: 'b' :: rest) = parseStrAux (bsChar :: acc) rest := by
  rw [parseStrAux.eq_def]
  simp

/-- Helper: one parsing step past an escaped tab. -/
theorem pS_esc_t (acc rest : List Char) :
    parseStrAux acc ('\\' :: 't' :: rest) = parseStrAux ('\t' :: acc) rest := by
  rw [parseStrAux.eq_def]
  simp

/-- Helper: one parsing step past an escaped newline. -/
theorem pS_esc_n (acc rest : List Char) :
    parseStrAux acc ('\\' :: 'n' :: rest) = parseStrAux ('\n' :: acc) rest := by
  rw [parseStrAux.eq_def]
  simp

/-- Helper: one parsing step past an escaped form feed. -/
theorem pS_esc_f (acc rest : List Char) :
    parseStrAux acc ('\\' :: 'f' :: rest) = parseStrAux (ffChar :: acc) rest := by
  rw [parseStrAux.eq_def]
  simp

/-- Helper: one parsing step past an escaped carriage return. -/
theorem pS_esc_r (acc rest : List Char) :
    parseStrAux acc ('\\' :: 'r' :: rest) = parseStrAux ('\r' :: acc) rest := by
  rw [parseStrAux.eq_def]
  simp

/-- Helper: one parsing step past a `\uXXXX` escape. -/
theorem pS_esc_u (acc rest : List Char) (a b c d : Char) (va vb vc vd : Nat)
    (ha : hexVal a = some va) (hb : hexVal b = some vb)
    (hc : hexVal c = some vc) (hd : hexVal d = some vd) :
    parseStrAux acc ('\\' :: 'u' :: a :: b :: c :: d :: rest) =
      parseStrAux (Char.ofNat (va * 4096 + vb * 256 + vc * 16 + vd) :: acc) rest := by
  rw [parseStrAux.eq_def]
  simp [ha, hb, hc, hd]

/-- Helper: one parsing step past an unescaped character. -/
theorem pS_plain (c : Char) (acc rest : List Char) (h1 : c ≠ '"')
    (h2 : c ≠ '\\') :
    parseStrAux acc (c :: rest) = parseStrAux (c :: acc) rest := by
  rw [parseStrAux.eq_def]
  simp [h1, h2]

/-- Helper: parsing an escaped string body inverts the escaping, up to the
closing quote. -/
theorem parseStrAux_escList (l : List Char) :
    ∀ (acc rest : List Char),
      parseStrAux acc (escList l ++ '"' :: rest) =
        some (String.mk (acc.reverse ++ l), rest) := by
  induction l with
  | nil =>
      intro acc rest
      rw [escList, List.nil_append, pS_quote]
      simp
  | cons c l ih =>
      intro acc rest
      have hcons : escList (c :: l) ++ '"' :: rest =
          escapeChar c ++ (escList l ++ '"' :: rest) := by
        simp [escList, List.append_assoc]
      rw [hcons]
      have step : parseStrAux acc (escapeChar c ++ (escList l ++ '"' :: rest)) =
          parseStrAux (c :: acc) (escList l ++ '"' :: rest) := by
        by_cases h1 : c = '"'
        · subst h1
          rw [show escapeChar '"' = ['\\', '"'] from rfl]
          rw [List.cons_append, List.cons_append, List.nil_append, pS_esc_quote]
        · by_cases h2 : c = '\\'
          · subst h2
            rw [show escapeChar '\\' = ['\\', '\\'] from rfl]
            rw [List.cons_append, List.cons_append, List.nil_append,
              pS_esc_backslash]
          · by_cases h8 : c.toNat = 8
            · have hc : c = bsChar := by rw [← Char.ofNat_toNat c, h8]; rfl
              simp only [escapeChar, if_neg h1, if_neg h2, if_pos h8,
                List.cons_append, List.nil_append]
              rw [pS_esc_b, ← hc]
            · by_cases h9 : c.toNat = 9
              · have hc : c = '\t' := by rw [← Char.ofNat_toNat c, h9]
                simp only [escapeChar, if_neg h1, if_neg h2, if_neg h8,
                  if_pos h9, List.cons_append, List.nil_append]
                rw [pS_esc_t, ← hc]
              · by_cases h10 : c.toNat = 10
                · have hc : c = '\n' := by rw [← Char.ofNat_toNat c, h10]
                  simp only [escapeChar, if_neg h1, if_neg h2, if_neg h8,
                    if_neg h9, if_pos h10, List.cons_append, List.nil_append]
                  rw [pS_esc_n, ← hc]
                · by_cases h12 : c.toNat = 12
                  · have hc : c = ffChar := by rw [← Char.ofNat_toNat c, h12]; rfl
                    simp only [escapeChar, if_neg h1, if_neg h2, if_neg h8,
                      if_neg h9, if_neg h10, if_pos h12, List.cons_append,
                      List.nil_append]
                    rw [pS_esc_f, ← hc]
                  · by_cases h13 : c.toNat = 13
                    · have hc : c = '\r' := by rw [← Char.ofNat_toNat c, h13]
                      simp only [escapeChar, if_neg h1, if_neg h2, if_neg h8,
                        if_neg h9, if_neg h10, if_neg h12, if_pos h13,
                        List.cons_append, List.nil_append]
                      rw [pS_esc_r, ← hc]
                    · by_cases h32 : c.toNat < 32
                      · simp only [escapeChar, if_neg h1, if_neg h2, if_neg h8,
                          if_neg h9, if_neg h10, if_neg h12, if_neg h13,
                          if_pos h32, List.cons_append, List.nil_append]
                        rw [pS_esc_u _ _ '0' '0' (hexDig (c.toNat / 16))
                          (hexDig (c.toNat % 16)) 0 0 (c.toNat / 16)
                          (c.toNat % 16) rfl rfl (hexVal_hexDig (by omega))
                          (hexVal_hexDig (by omega))]
                        have hval : 0 * 4096 + 0 * 256 + c.toNat / 16 * 16 +
                            c.toNat % 16 = c.toNat := by omega
                        rw [hval, Char.ofNat_toNat]
                      · simp only [escapeChar, if_neg h1, if_neg h2, if_neg h8,
                          if_neg h9, if_neg h10, if_neg h12, if_neg h13,
                          if_neg h32, List.cons_append, List.nil_append]
                        rw [pS_plain c _ _ h1 h2]
      rw [step, ih]
      simp

/-- Helper: parsing a quoted, escaped string yields the original string. -/
theorem parseStr_quote (s : String) (rest : List Char) :
    parseStrAux [] (escList s.data ++ '"' :: rest) = some (s, rest) := by
  rw [parseStrAux_escList]
  cases s
  simp

/-- Helper: a number below `10 ^ f` has at most `f` decimal digits. -/
theorem natDigits_length_le : ∀ n f : Nat, 1 ≤ f → n < 10 ^ f →
    (natDigits n).length ≤ f := by
  intro n
  induction n using Nat.strong_induction_on with
  | _ n ih =>
      intro f hf hn
      rw [natDigits]
      by_cases h : n < 10
      · rw [dif_pos h]
        simpa using hf
      · rw [dif_neg h]
        rcases f with _ | _ | f2
        · omega
        · simp at hn
          omega
        · have hdiv : n / 10 < 10 ^ (f2 + 1) := by
            rw [Nat.div_lt_iff_lt_mul (by omega : 0 < 10)]
            calc n < 10 ^ (f2 + 2) := hn
              _ = 10 ^ (f2 + 1) * 10 := by rw [pow_succ]
          have := ih (n / 10) (Nat.div_lt_self (by omega) (by omega))
            (f2 + 1) (by omega) hdiv
          simp only [List.length_append, List.length_singleton]
          omega

/-- Helper: the padded fraction block has exactly the requested width. -/
theorem padDigits_length {f n : Nat} (hf : 1 ≤ f) (hn : n < 10 ^ f) :
    (padDigits f n).length = f := by
  have := natDigits_length_le n f hf hn
  simp only [padDigits, List.length_append, List.length_replicate]
  omega

/-- Helper: a padded fraction block starts with a digit. -/
theorem padDigits_shape (f n : Nat) :
    ∃ d t, padDigits f n = d :: t ∧ d.isDigit = true := by
  unfold padDigits
  rcases hk : f - (natDigits n).length with _ | k
  · obtain ⟨d, l, hl, hd⟩ := natDigits_shape n
    exact ⟨digitChar d, l, by rw [hl]; rfl, (digitChar_props hd).1⟩
  · exact ⟨'0', List.replicate k '0' ++ natDigits n, rfl, by decide⟩

/-- Helper: an emitted absolute number starts with a digit. -/
theorem emitNumAbs_shape (a f : Nat) :
    ∃ d t, emitNumAbs a f = d :: t ∧ d.isDigit = true := by
  unfold emitNumAbs
  by_cases hf : f = 0
  · obtain ⟨d, l, hl, hd⟩ := natDigits_shape a
    exact ⟨digitChar d, l, by rw [if_pos hf, hl], (digitChar_props hd).1⟩
  · obtain ⟨d, l, hl, hd⟩ := natDigits_shape (a / 10 ^ f)
    exact ⟨digitChar d, l ++ '.' :: padDigits f (a % 10 ^ f),
      by rw [if_neg hf, hl]; rfl, (digitChar_props hd).1⟩

/-- Helper: fraction consumption stops at a non-digit boundary. -/
theorem parseFracAux_stop (acc cnt : Nat) (rest : List Char)
    (h : headIsDigit rest = false) : parseFracAux acc cnt rest = (acc, cnt, rest) := by
  cases rest with
  | nil => rfl
  | cons c t =>
      simp only [headIsDigit] at h
      simp [parseFracAux, h]

/-- Helper: consuming a run of zero digits scales the accumulator and adds
the run length to the count. -/
theorem parseFracAux_zeros : ∀ (k acc cnt : Nat) (rest : List Char),
    parseFracAux acc cnt (List.replicate k '0' ++ rest) =
      parseFracAux (acc * 10 ^ k) (cnt + k) rest := by
  intro k
  induction k with
  | zero => intro acc cnt rest; simp
  | succ k ihk =>
      intro acc cnt rest
      rw [show List.replicate (k + 1) '0' ++ rest =
        '0' :: (List.replicate k '0' ++ rest) from rfl]
      rw [show parseFracAux acc cnt ('0' :: (List.replicate k '0' ++ rest)) =
        parseFracAux (acc * 10 + 0) (cnt + 1) (List.replicate k '0' ++ rest)
        from by simp [parseFracAux]]
      rw [ihk]
      have h1 : (acc * 10 + 0) * 10 ^ k = acc * 10 ^ (k + 1) := by ring
      have h2 : cnt + 1 + k = cnt + (k + 1) := by omega
      rw [h1, h2]

/-- Helper: consuming an emitted natural number in fraction position
accumulates its value and counts its digits. -/
theorem parseFracAux_natDigits (n : Nat) :
    ∀ acc cnt rest, parseFracAux acc cnt (natDigits n ++ rest) =
      parseFracAux (acc * 10 ^ (natDigits n).length + n)
        (cnt + (natDigits n).length) rest := by
  induction n using Nat.strong_induction_on with
  | _ n ih =>
      intro acc cnt rest
      by_cases h : n < 10
      · have hn : natDigits n = [digitChar n] := by rw [natDigits, dif_pos h]
        obtain ⟨hdig, hval⟩ := digitChar_props h
        rw [hn]
        simp only [List.cons_append, List.nil_append, parseFracAux, hdig,
          if_true, hval, List.length_singleton, pow_one]
        rfl
      · have hdlt : n / 10 < n := Nat.div_lt_self (by omega) (by omega)
        have hn : natDigits n = natDigits (n / 10) ++ [digitChar (n % 10)] := by
          rw [natDigits, dif_neg h]
        obtain ⟨hdig, hval⟩ := digitChar_props (Nat.mod_lt n (by omega))
        rw [hn, List.append_assoc, List.cons_append, List.nil_append,
          ih (n / 10) hdlt]
        simp only [parseFracAux, hdig, if_true, hval]
        have harith : (acc * 10 ^ (natDigits (n / 10)).length + n / 10) * 10 +
            n % 10 = acc * 10 ^ (natDigits (n / 10) ++
              [digitChar (n % 10)]).length + n := by
          rw [List.length_append, List.length_singleton, pow_succ]
          have hmod : n / 10 * 10 + n % 10 = n := by omega
          calc (acc * 10 ^ (natDigits (n / 10)).length + n / 10) * 10 + n % 10
              = acc * 10 ^ (natDigits (n / 10)).length * 10 +
                  (n / 10 * 10 + n % 10) := by ring
            _ = acc * (10 ^ (natDigits (n / 10)).length * 10) + n := by
                  rw [hmod, mul_assoc]
        have hcnt : cnt + (natDigits (n / 10)).length + 1 =
            cnt + (natDigits (n / 10) ++ [digitChar (n % 10)]).length := by
          simp only [List.length_append, List.length_singleton]
          omega
        rw [harith, hcnt]

/-- Helper: the padded fraction block parses back to its value with the
right digit count. -/
theorem parseFrac_pad {f m : Nat} (rest : List Char) (hf : 1 ≤ f)
    (hm : m < 10 ^ f) (h : headIsDigit rest = false) :
    parseFracAux 0 0 (padDigits f m ++ rest) = (m, f, rest) := by
  have hlen := natDigits_length_le m f hf hm
  rw [padDigits, List.append_assoc, parseFracAux_zeros,
    parseFracAux_natDigits, parseFracAux_stop _ _ _ h]
  have h1 : 0 * 10 ^ (f - (natDigits m).length) * 10 ^ (natDigits m).length +
      m = m := by ring
  have h2 : 0 + (f - (natDigits m).length) + (natDigits m).length = f := by
    omega
  rw [h1, h2]

/-- Helper: a remainder that cannot extend a number starts with no digit. -/
theorem headNumExt_digit (rest : List Char) (h : headNumExt rest = false) :
    headIsDigit rest = false := by
  cases rest with
  | nil => rfl
  | cons c t =>
      simp only [headNumExt, Bool.or_eq_false_iff] at h
      simp only [headIsDigit]
      exact h.1.1.1

/-- Helper: without a point, the fraction part is empty. -/
theorem parseFracPart_skip (rest : List Char) (h : headNumExt rest = false) :
    parseFracPart rest = some (0, 0, rest) := by
  cases rest with
  | nil => rfl
  | cons c t =>
      simp only [headNumExt, Bool.or_eq_false_iff, decide_eq_false_iff_not] at h
      rw [parseFracPart.eq_def]
      simp [h.1.1.2]

/-- Helper: without an exponent marker, the exponent is zero and nothing is
consumed. -/
theorem parseExp_skip (rest : List Char) (h : headNumExt rest = false) :
    parseExp rest = some (0, rest) := by
  cases rest with
  | nil => rfl
  | cons c t =>
      simp only [headNumExt, Bool.or_eq_false_iff, decide_eq_false_iff_not] at h
      have hc : ¬(c = 'e' ∨ c = 'E') := by push_neg; exact ⟨h.1.2, h.2⟩
      rw [parseExp.eq_def]
      simp [hc]

/-- Helper: the number reader inverts the number printer: an emitted
absolute decimal with an optional sign parses back to exactly the same
mantissa and fraction width, up to a remainder that cannot extend the
literal. -/
theorem parseNumber_emitNumAbs (a f : Nat) (neg : Bool) (rest : List Char)
    (h : headNumExt rest = false) :
    parseNumber neg (emitNumAbs a f ++ rest) =
      some ({ mantissa := if neg then -(a : Int) else (a : Int),
              fracDigits := f }, rest) := by
  have hid := headNumExt_digit rest h
  by_cases hf : f = 0
  · subst hf
    rw [show emitNumAbs a 0 = natDigits a from by simp [emitNumAbs]]
    rw [parseNumber, parseDigits_roundtrip a rest hid]
    simp only [parseFracPart_skip rest h, parseExp_skip rest h]
    have hq : mkNumber neg a 0 0 0 =
        { mantissa := if neg then -(a : Int) else (a : Int), fracDigits := 0 } := by
      simp only [mkNumber]
      norm_num
      cases neg <;> simp
    rw [hq]
  · have hf1 : 1 ≤ f := by omega
    have hm : a % 10 ^ f < 10 ^ f := Nat.mod_lt _ (by positivity)
    rw [show emitNumAbs a f ++ rest = natDigits (a / 10 ^ f) ++
        ('.' :: (padDigits f (a % 10 ^ f) ++ rest)) from by
      simp [emitNumAbs, hf, List.append_assoc]]
    rw [parseNumber, parseDigits_roundtrip _ _ (by rfl)]
    obtain ⟨d, t, hdt, hdig⟩ := padDigits_shape f (a % 10 ^ f)
    have hfp : parseFracPart ('.' :: (padDigits f (a % 10 ^ f) ++ rest)) =
        some (a % 10 ^ f, f, rest) := by
      rw [show padDigits f (a % 10 ^ f) ++ rest = d :: (t ++ rest) from by
        rw [hdt]; rfl]
      rw [parseFracPart.eq_def]
      simp only [hdig, if_true]
      rw [show d :: (t ++ rest) = padDigits f (a % 10 ^ f) ++ rest from by
        rw [hdt]; rfl]
      rw [parseFrac_pad rest hf1 hm hid]
    simp only [hfp, parseExp_skip rest h]
    have hsum : a / 10 ^ f * 10 ^ f + a % 10 ^ f = a := by
      rw [mul_comm]
      exact Nat.div_add_mod a (10 ^ f)
    have hq : mkNumber neg (a / 10 ^ f) (a % 10 ^ f) f 0 =
        { mantissa := if neg then -(a : Int) else (a : Int), fracDigits := f } := by
      simp only [mkNumber]
      rw [if_neg (by omega : ¬(0 : Int) ≤ 0 - (f : Int))]
      cases neg <;> simp [hsum]
    rw [hq]

/-- Helper: an emitted value starts with a non-whitespace character that is
neither a closing bracket nor a closing brace. -/
theorem emitV_shape (v : Json) (ind : Nat) :
    ∃ c t, emitV v ind = c :: t ∧ isWsChar c = false ∧ c ≠ ']' ∧
      c ≠ rbraceChar := by
  cases v with
  | null => refine ⟨'n', _, rfl, ?_, ?_, ?_⟩ <;> decide
  | bool b =>
      cases b with
      | true => refine ⟨'t', _, rfl, ?_, ?_, ?_⟩ <;> decide
      | false => refine ⟨'f', _, rfl, ?_, ?_, ?_⟩ <;> decide
  | num q =>
      by_cases hq : q.mantissa < 0
      · refine ⟨'-', emitNumAbs q.mantissa.natAbs q.fracDigits, ?_,
          by decide, by decide, by decide⟩
        simp [emitV, emitNum, hq]
      · obtain ⟨d, l, hl, hdig⟩ := emitNumAbs_shape q.mantissa.natAbs q.fracDigits
        obtain ⟨_, _, _, _, _, _, _, hws, hrb, hbr⟩ := isDigit_props hdig
        refine ⟨d, l, ?_, hws, hrb, hbr⟩
        simp [emitV, emitNum, hq, hl]
  | str s => refine ⟨'"', _, rfl, ?_, ?_, ?_⟩ <;> decide
  | arr l =>
      cases l with
      | nil => refine ⟨'[', _, rfl, ?_, ?_, ?_⟩ <;> decide
      | cons v l => refine ⟨'[', _, rfl, ?_, ?_, ?_⟩ <;> decide
  | obj m =>
      cases m with
      | nil => refine ⟨lbraceChar, _, rfl, ?_, ?_, ?_⟩ <;> decide
      | cons p m => refine ⟨lbraceChar, _, rfl, ?_, ?_, ?_⟩ <;> decide

mutual

/-- Helper: the fuel measure of a value is covered by its printed length. -/
theorem sizeJ_le_emit (v : Json) (ind : Nat) : sizeJ v ≤ (emitV v ind).length := by
  cases v with
  | null => simp [sizeJ, emitV]
  | bool b => cases b <;> simp [sizeJ, emitV]
  | num i =>
      obtain ⟨c, t, hct, _, _, _⟩ := emitV_shape (Json.num i) ind
      simp [sizeJ, hct]
  | str s =>
      obtain ⟨c, t, hct, _, _, _⟩ := emitV_shape (Json.str s) ind
      simp [sizeJ, hct]
  | arr l =>
      cases l with
      | nil => simp [sizeJ, emitV]
      | cons v l =>
          have h := sizeL_le_emitElems (v :: l) (ind + 2) (by omega) (by simp)
          simp only [sizeJ, emitV, List.length_cons, List.length_append,
            List.length_cons, List.length_singleton]
          omega
  | obj m =>
      cases m with
      | nil => simp [sizeJ, emitV]
      | cons p m =>
          have h := sizeM_le_emitMembers (p :: m) (ind + 2) (by omega) (by simp)
          simp only [sizeJ, emitV, List.length_cons, List.length_append,
            List.length_cons, List.length_singleton]
          omega

/-- Helper: the fuel measure of a non-empty element list is covered by its
printed length at positive indentation. -/
theorem sizeL_le_emitElems (l : List Json) (ind : Nat) (hind : 1 ≤ ind) :
    l ≠ [] → sizeL l ≤ (emitElems l ind).length := by
  cases l with
  | nil => intro h; exact absurd rfl h
  | cons v l =>
      intro _
      have hv := sizeJ_le_emit v ind
      cases l with
      | nil =>
          simp only [sizeL, sizeL.eq_1, emitElems, List.length_append,
            spacesList, List.length_replicate]
          omega
      | cons w l =>
          have hl := sizeL_le_emitElems (w :: l) ind hind (by simp)
          simp only [sizeL] at hl ⊢
          simp only [emitElems, List.length_append, spacesList,
            List.length_replicate, List.length_cons]
          omega

/-- Helper: the fuel measure of a non-empty member list is covered by its
printed length at positive indentation. -/
theorem sizeM_le_emitMembers (m : List (String × Json)) (ind : Nat)
    (hind : 1 ≤ ind) : m ≠ [] → sizeM m ≤ (emitMembers m ind).length := by
  cases m with
  | nil => intro h; exact absurd rfl h
  | cons p m =>
      intro _
      obtain ⟨k, v⟩ := p
      have hv := sizeJ_le_emit v ind
      cases m with
      | nil =>
          simp only [sizeM, sizeM.eq_1, emitMembers, List.length_append,
            spacesList, List.length_replicate, List.length_cons]
          omega
      | cons q m =>
          have hm := sizeM_le_emitMembers (q :: m) ind hind (by simp)
          simp only [sizeM] at hm ⊢
          simp only [emitMembers, List.length_append, spacesList,
            List.length_replicate, List.length_cons]
          omega

end

/-- Helper: every value needs at least one unit of fuel. -/
theorem sizeJ_pos (v : Json) : 1 ≤ sizeJ v := by
  cases v with
  | arr l => cases l <;> simp [sizeJ]
  | obj m => cases m <;> simp [sizeJ]
  | _ => simp [sizeJ]

/-- Helper: a non-empty element list needs at least one unit of fuel. -/
theorem sizeL_pos (l : List Json) (h : l ≠ []) : 1 ≤ sizeL l := by
  cases l with
  | nil => exact absurd rfl h
  | cons v l => simp [sizeL]; omega

/-- Helper: a non-empty member list needs at least one unit of fuel. -/
theorem sizeM_pos (m : List (String × Json)) (h : m ≠ []) : 1 ≤ sizeM m := by
  cases m with
  | nil => exact absurd rfl h
  | cons p m => obtain ⟨k, v⟩ := p; simp [sizeM]; omega

/-- Helper: skipping whitespace passes one whitespace character. -/
theorem skipWs_cons_ws {c : Char} (l : List Char) (h : isWsChar c = true) :
    skipWs (c :: l) = skipWs l := by
  simp [skipWs, h]

/-- Helper: whitespace membership for a concatenation. -/
theorem ws_append {w1 w2 : List Char} (h1 : ∀ c ∈ w1, isWsChar c = true)
    (h2 : ∀ c ∈ w2, isWsChar c = true) : ∀ c ∈ w1 ++ w2, isWsChar c = true := by
  intro c hc
  rcases List.mem_append.mp hc with h | h
  · exact h1 c h
  · exact h2 c h

/-- Helper: after whitespace, an emitted element list starts with a value's
first character — never a closing bracket or brace. -/
theorem emitElems_head (v : Json) (l : List Json) (ind : Nat) (tail : List Char) :
    ∃ c0 Y, skipWs (emitElems (v :: l) ind ++ tail) = c0 :: Y ∧
      c0 ≠ ']' ∧ c0 ≠ rbraceChar := by
  obtain ⟨c0, t0, hct, hcw, hcrb, hcbr⟩ := emitV_shape v ind
  cases l with
  | nil =>
      refine ⟨c0, t0 ++ tail, ?_, hcrb, hcbr⟩
      rw [show emitElems [v] ind = spacesList ind ++ emitV v ind from rfl,
        List.append_assoc, skipWs_append _ _ (spacesList_ws _), hct,
        List.cons_append, skipWs_not_ws _ hcw]
  | cons u l' =>
      refine ⟨c0, t0 ++ ((',' :: '\n' :: emitElems (u :: l') ind) ++ tail), ?_,
        hcrb, hcbr⟩
      rw [show emitElems (v :: u :: l') ind = spacesList ind ++ emitV v ind ++
        ',' :: '\n' :: emitElems (u :: l') ind from rfl,
        List.append_assoc, List.append_assoc,
        skipWs_append _ _ (spacesList_ws _), hct,
        List.cons_append, skipWs_not_ws _ hcw]

/-- Helper: after whitespace, an emitted member list starts with the opening
quote of its first key. -/
theorem emitMembers_head (k : String) (v : Json) (m : List (String × Json))
    (ind : Nat) (tail : List Char) :
    ∃ Y, skipWs (emitMembers ((k, v) :: m) ind ++ tail) = '"' :: Y := by
  cases m with
  | nil =>
      refine ⟨(escList k.data ++ '"' :: ':' :: ' ' :: emitV v ind) ++ tail, ?_⟩
      rw [show emitMembers [(k, v)] ind = spacesList ind ++ '"' ::
        (escList k.data ++ '"' :: ':' :: ' ' :: emitV v ind) from by
          rw [emitMembers]; simp]
      rw [List.append_assoc, skipWs_append _ _ (spacesList_ws _),
        List.cons_append, skipWs_not_ws _ (by decide)]
  | cons q m' =>
      refine ⟨(escList k.data ++ '"' :: ':' :: ' ' :: emitV v ind ++
        ',' :: '\n' :: emitMembers (q :: m') ind) ++ tail, ?_⟩
      rw [show emitMembers ((k, v) :: q :: m') ind = spacesList ind ++ '"' ::
        (escList k.data ++ '"' :: ':' :: ' ' :: emitV v ind ++
          ',' :: '\n' :: emitMembers (q :: m') ind) from by
          rw [emitMembers] <;> simp]
      rw [List.append_assoc, skipWs_append _ _ (spacesList_ws _),
        List.cons_append, skipWs_not_ws _ (by decide)]

/-- Helper: the parser reads back every emitted value — stated for all three
mutually recursive readers simultaneously and proved by induction on the
fuel.  The value reader tolerates a leading whitespace run and a remainder
that does not start with a digit; the element and member readers consume the
emitted list up to and including the closing bracket or brace on its
stepback line. -/
theorem parse_emit_all : ∀ fuel : Nat,
    (∀ v ind w rest, (∀ c ∈ w, isWsChar c = true) → headNumExt rest = false →
      sizeJ v ≤ fuel →
      parseVal fuel (w ++ (emitV v ind ++ rest)) = some (v, rest)) ∧
    (∀ l ind j w rest, l ≠ [] → (∀ c ∈ w, isWsChar c = true) → sizeL l ≤ fuel →
      parseItems fuel
        (w ++ (emitElems l ind ++ ('\n' :: (spacesList j ++ (']' :: rest))))) =
        some (l, rest)) ∧
    (∀ m ind j w rest, m ≠ [] → (∀ c ∈ w, isWsChar c = true) → sizeM m ≤ fuel →
      parseMembers fuel
        (w ++ (emitMembers m ind ++
          ('\n' :: (spacesList j ++ (rbraceChar :: rest))))) =
        some (m, rest)) := by
  intro fuel
  induction fuel with
  | zero =>
      refine ⟨?_, ?_, ?_⟩
      · intro v _ _ _ _ _ hsz
        exact absurd hsz (by have := sizeJ_pos v; omega)
      · intro l _ _ _ _ hne _ hsz
        exact absurd hsz (by have := sizeL_pos l hne; omega)
      · intro m _ _ _ _ hne _ hsz
        exact absurd hsz (by have := sizeM_pos m hne; omega)
  | succ fuel ih =>
      obtain ⟨ihP, ihQ, ihR⟩ := ih
      refine ⟨?_, ?_, ?_⟩
      · -- the value reader
        intro v ind w rest hw hrest hsz
        cases v with
        | null =>
            rw [parseVal, skipWs_append w _ hw]
            rw [show emitV Json.null ind ++ rest =
              'n' :: 'u' :: 'l' :: 'l' :: rest from rfl]
            rw [skipWs_not_ws _ (by decide)]
            simp
        | bool b =>
            cases b with
            | true =>
                rw [parseVal, skipWs_append w _ hw]
                rw [show emitV (Json.bool true) ind ++ rest =
                  't' :: 'r' :: 'u' :: 'e' :: rest from rfl]
                rw [skipWs_not_ws _ (by decide)]
                simp
            | false =>
                rw [parseVal, skipWs_append w _ hw]
                rw [show emitV (Json.bool false) ind ++ rest =
                  'f' :: 'a' :: 'l' :: 's' :: 'e' :: rest from rfl]
                rw [skipWs_not_ws _ (by decide)]
                simp
        | str s =>
            rw [parseVal, skipWs_append w _ hw]
            rw [show emitV (Json.str s) ind ++ rest =
              '"' :: (escList s.data ++ '"' :: rest) from by simp [emitV]]
            rw [skipWs_not_ws _ (by decide)]
            simp only [if_neg (by decide : ¬('"' : Char) = 'n'),
              if_neg (by decide : ¬('"' : Char) = 't'),
              if_neg (by decide : ¬('"' : Char) = 'f'), if_pos rfl, eq_self_iff_true, if_true]
            rw [parseStr_quote]
            rfl
        | num q =>
            rw [parseVal, skipWs_append w _ hw]
            by_cases hq : q.mantissa < 0
            · obtain ⟨d, tl, hdl, hdig⟩ :=
                emitNumAbs_shape q.mantissa.natAbs q.fracDigits
              have hemit : emitV (Json.num q) ind ++ rest =
                  '-' :: (emitNumAbs q.mantissa.natAbs q.fracDigits ++ rest) := by
                simp [emitV, emitNum, hq]
              rw [hemit, skipWs_not_ws _ (by decide)]
              simp only [if_neg (by decide : ¬('-' : Char) = 'n'),
                if_neg (by decide : ¬('-' : Char) = 't'),
                if_neg (by decide : ¬('-' : Char) = 'f'),
                if_neg (by decide : ¬('-' : Char) = '"'),
                if_neg (by decide : ¬('-' : Char) = '['),
                if_neg (by decide : ¬('-' : Char) = lbraceChar), if_pos rfl, eq_self_iff_true, if_true]
              rw [show emitNumAbs q.mantissa.natAbs q.fracDigits ++ rest =
                d :: (tl ++ rest) from by rw [hdl]; rfl]
              simp only [hdig, if_true]
              rw [show d :: (tl ++ rest) =
                emitNumAbs q.mantissa.natAbs q.fracDigits ++ rest
                from by rw [hdl]; rfl]
              rw [parseNumber_emitNumAbs _ _ _ _ hrest]
              have hcast : -((q.mantissa.natAbs : Int)) = q.mantissa := by omega
              simp [hcast, abs_of_neg hq]
            · obtain ⟨d, tl, hdl, hdig⟩ :=
                emitNumAbs_shape q.mantissa.natAbs q.fracDigits
              have hemit : emitV (Json.num q) ind ++ rest =
                  d :: (tl ++ rest) := by
                simp [emitV, emitNum, hq, hdl]
              rw [hemit]
              obtain ⟨c1, c2, c3, c4, c5, c6, c7, hws, _, _⟩ := isDigit_props hdig
              rw [skipWs_not_ws _ hws]
              simp only [if_neg c1, if_neg c2, if_neg c3, if_neg c4, if_neg c5,
                if_neg c6, if_neg c7, if_pos hdig]
              rw [show d :: (tl ++ rest) =
                emitNumAbs q.mantissa.natAbs q.fracDigits ++ rest
                from by rw [hdl]; rfl]
              rw [parseNumber_emitNumAbs _ _ _ _ hrest]
              have hcast : ((q.mantissa.natAbs : Int)) = q.mantissa := by omega
              simp [hcast, abs_of_nonneg (by omega : (0 : Int) ≤ q.mantissa)]
        | arr l =>
            cases l with
            | nil =>
                rw [parseVal, skipWs_append w _ hw]
                rw [show emitV (Json.arr []) ind ++ rest = '[' :: (']' :: rest)
                  from rfl]
                rw [skipWs_not_ws _ (by decide)]
                simp only [if_neg (by decide : ¬('[' : Char) = 'n'),
                  if_neg (by decide : ¬('[' : Char) = 't'),
                  if_neg (by decide : ¬('[' : Char) = 'f'),
                  if_neg (by decide : ¬('[' : Char) = '"'), if_pos rfl, eq_self_iff_true, if_true]
                rw [skipWs_not_ws _ (by decide)]
                simp
            | cons v l =>
                rw [parseVal, skipWs_append w _ hw]
                have hemit : emitV (Json.arr (v :: l)) ind ++ rest =
                    '[' :: ('\n' :: (emitElems (v :: l) (ind + 2) ++
                      ('\n' :: (spacesList ind ++ (']' :: rest))))) := by
                  simp [emitV, List.append_assoc]
                rw [hemit, skipWs_not_ws _ (by decide)]
                simp only [if_neg (by decide : ¬('[' : Char) = 'n'),
                  if_neg (by decide : ¬('[' : Char) = 't'),
                  if_neg (by decide : ¬('[' : Char) = 'f'),
                  if_neg (by decide : ¬('[' : Char) = '"'), if_pos rfl, eq_self_iff_true, if_true]
                obtain ⟨c0, Y, hY, hner, _⟩ := emitElems_head v l (ind + 2)
                  ('\n' :: (spacesList ind ++ (']' :: rest)))
                rw [show skipWs ('\n' :: (emitElems (v :: l) (ind + 2) ++
                  ('\n' :: (spacesList ind ++ (']' :: rest))))) = c0 :: Y from by
                    rw [skipWs_cons_ws _ (by decide)]; exact hY]
                split
                · next r2 heq =>
                    injection heq with h1 _
                    exact absurd h1 hner
                · have hsz2 : sizeL (v :: l) ≤ fuel := by
                    simp only [sizeJ] at hsz
                    omega
                  have hq := ihQ (v :: l) (ind + 2) ind ['\n'] rest (by simp)
                    (by intro c hc; simp at hc; rw [hc]; decide) hsz2
                  rw [show ('\n' :: (emitElems (v :: l) (ind + 2) ++
                      ('\n' :: (spacesList ind ++ (']' :: rest))))) =
                    ['\n'] ++ (emitElems (v :: l) (ind + 2) ++
                      ('\n' :: (spacesList ind ++ (']' :: rest)))) from rfl, hq]
                  rfl
        | obj m =>
            cases m with
            | nil =>
                rw [parseVal, skipWs_append w _ hw]
                rw [show emitV (Json.obj []) ind ++ rest =
                  lbraceChar :: (rbraceChar :: rest) from rfl]
                rw [skipWs_not_ws _ (by decide)]
                simp only [if_neg (by decide : ¬lbraceChar = 'n'),
                  if_neg (by decide : ¬lbraceChar = 't'),
                  if_neg (by decide : ¬lbraceChar = 'f'),
                  if_neg (by decide : ¬lbraceChar = '"'),
                  if_neg (by decide : ¬lbraceChar = '['), if_pos rfl, eq_self_iff_true, if_true]
                rw [skipWs_not_ws _ (by decide)]
                simp
            | cons p m =>
                obtain ⟨k, v⟩ := p
                rw [parseVal, skipWs_append w _ hw]
                have hemit : emitV (Json.obj ((k, v) :: m)) ind ++ rest =
                    lbraceChar :: ('\n' :: (emitMembers ((k, v) :: m) (ind + 2) ++
                      ('\n' :: (spacesList ind ++ (rbraceChar :: rest))))) := by
                  simp [emitV, List.append_assoc]
                rw [hemit, skipWs_not_ws _ (by decide)]
                simp only [if_neg (by decide : ¬lbraceChar = 'n'),
                  if_neg (by decide : ¬lbraceChar = 't'),
                  if_neg (by decide : ¬lbraceChar = 'f'),
                  if_neg (by decide : ¬lbraceChar = '"'),
                  if_neg (by decide : ¬lbraceChar = '['), if_pos rfl, eq_self_iff_true, if_true]
                obtain ⟨Y, hY⟩ := emitMembers_head k v m (ind + 2)
                  ('\n' :: (spacesList ind ++ (rbraceChar :: rest)))
                rw [show skipWs ('\n' :: (emitMembers ((k, v) :: m) (ind + 2) ++
                  ('\n' :: (spacesList ind ++ (rbraceChar :: rest))))) =
                  '"' :: Y from by
                    rw [skipWs_cons_ws _ (by decide)]; exact hY]
                simp only [if_neg (by decide : ¬('"' : Char) = rbraceChar)]
                have hsz2 : sizeM ((k, v) :: m) ≤ fuel := by
                  simp only [sizeJ] at hsz
                  omega
                have hr := ihR ((k, v) :: m) (ind + 2) ind ['\n'] rest (by simp)
                  (by intro c hc; simp at hc; rw [hc]; decide) hsz2
                rw [show ('\n' :: (emitMembers ((k, v) :: m) (ind + 2) ++
                    ('\n' :: (spacesList ind ++ (rbraceChar :: rest))))) =
                  ['\n'] ++ (emitMembers ((k, v) :: m) (ind + 2) ++
                    ('\n' :: (spacesList ind ++ (rbraceChar :: rest)))) from rfl,
                  hr]
                rfl
      · -- the element reader
        intro l ind j w rest hne hw hsz
        cases l with
        | nil => exact absurd rfl hne
        | cons v l =>
            rw [parseItems]
            cases l with
            | nil =>
                have hv : parseVal fuel ((w ++ spacesList ind) ++ (emitV v ind ++
                    ('\n' :: (spacesList j ++ (']' :: rest))))) =
                    some (v, '\n' :: (spacesList j ++ (']' :: rest))) := by
                  refine ihP v ind (w ++ spacesList ind) _
                    (ws_append hw (spacesList_ws ind)) (by rfl) ?_
                  simp only [sizeL] at hsz
                  omega
                have hin : w ++ (emitElems [v] ind ++
                    ('\n' :: (spacesList j ++ (']' :: rest)))) =
                    (w ++ spacesList ind) ++ (emitV v ind ++
                    ('\n' :: (spacesList j ++ (']' :: rest)))) := by
                  rw [show emitElems [v] ind = spacesList ind ++ emitV v ind
                    from rfl]
                  simp [List.append_assoc]
                rw [hin]
                simp only [hv]
                rw [show skipWs ('\n' :: (spacesList j ++ (']' :: rest))) =
                  ']' :: rest from by
                    rw [skipWs_cons_ws _ (by decide),
                      skipWs_append _ _ (spacesList_ws _),
                      skipWs_not_ws _ (by decide)]]
                simp
            | cons u l' =>
                have hv : parseVal fuel ((w ++ spacesList ind) ++ (emitV v ind ++
                    (',' :: ('\n' :: (emitElems (u :: l') ind ++
                      ('\n' :: (spacesList j ++ (']' :: rest)))))))) =
                    some (v, ',' :: ('\n' :: (emitElems (u :: l') ind ++
                      ('\n' :: (spacesList j ++ (']' :: rest)))))) := by
                  refine ihP v ind (w ++ spacesList ind) _
                    (ws_append hw (spacesList_ws ind)) (by rfl) ?_
                  simp only [sizeL] at hsz
                  omega
                have hin : w ++ (emitElems (v :: u :: l') ind ++
                    ('\n' :: (spacesList j ++ (']' :: rest)))) =
                    (w ++ spacesList ind) ++ (emitV v ind ++
                    (',' :: ('\n' :: (emitElems (u :: l') ind ++
                      ('\n' :: (spacesList j ++ (']' :: rest))))))) := by
                  rw [show emitElems (v :: u :: l') ind = spacesList ind ++
                    emitV v ind ++ ',' :: '\n' :: emitElems (u :: l') ind
                    from rfl]
                  simp [List.append_assoc]
                rw [hin]
                simp only [hv]
                rw [skipWs_not_ws _ (by decide)]
                have hq := ihQ (u :: l') ind j ['\n'] rest (by simp)
                  (by intro c hc; simp at hc; rw [hc]; decide)
                  (by simp only [sizeL] at hsz ⊢; omega)
                simp only [List.singleton_append] at hq
                simp [hq]
      · -- the member reader
        intro m ind j w rest hne hw hsz
        cases m with
        | nil => exact absurd rfl hne
        | cons p m =>
            obtain ⟨k, v⟩ := p
            rw [parseMembers]
            cases m with
            | nil =>
                have hin : w ++ (emitMembers [(k, v)] ind ++
                    ('\n' :: (spacesList j ++ (rbraceChar :: rest)))) =
                    (w ++ spacesList ind) ++ ('"' :: (escList k.data ++
                    '"' :: (':' :: (' ' :: (emitV v ind ++
                    ('\n' :: (spacesList j ++ (rbraceChar :: rest)))))))) := by
                  rw [show emitMembers [(k, v)] ind = spacesList ind ++ '"' ::
                    (escList k.data ++ '"' :: ':' :: ' ' :: emitV v ind) from by
                      rw [emitMembers]; simp]
                  simp [List.append_assoc]
                rw [hin, skipWs_append _ _ (ws_append hw (spacesList_ws ind)),
                  skipWs_not_ws _ (by decide)]
                simp only [if_pos rfl, eq_self_iff_true, if_true]
                rw [parseStr_quote]
                simp only [Option.some.injEq]
                rw [skipWs_not_ws _ (by decide)]
                have hv : parseVal fuel ([' '] ++ (emitV v ind ++
                    ('\n' :: (spacesList j ++ (rbraceChar :: rest))))) =
                    some (v, '\n' :: (spacesList j ++ (rbraceChar :: rest))) := by
                  refine ihP v ind [' '] _
                    (by intro c hc; simp at hc; rw [hc]; decide) (by rfl) ?_
                  simp only [sizeM] at hsz
                  omega
                rw [show (' ' :: (emitV v ind ++
                    ('\n' :: (spacesList j ++ (rbraceChar :: rest))))) =
                  [' '] ++ (emitV v ind ++
                    ('\n' :: (spacesList j ++ (rbraceChar :: rest)))) from rfl]
                simp only [hv]
                rw [show skipWs ('\n' :: (spacesList j ++ (rbraceChar :: rest))) =
                  rbraceChar :: rest from by
                    rw [skipWs_cons_ws _ (by decide),
                      skipWs_append _ _ (spacesList_ws _),
                      skipWs_not_ws _ (by decide)]]
                rfl
            | cons q m' =>
                have hin : w ++ (emitMembers ((k, v) :: q :: m') ind ++
                    ('\n' :: (spacesList j ++ (rbraceChar :: rest)))) =
                    (w ++ spacesList ind) ++ ('"' :: (escList k.data ++
                    '"' :: (':' :: (' ' :: (emitV v ind ++
                    (',' :: ('\n' :: (emitMembers (q :: m') ind ++
                    ('\n' :: (spacesList j ++ (rbraceChar :: rest))))))))))) := by
                  rw [show emitMembers ((k, v) :: q :: m') ind = spacesList ind ++
                    '"' :: (escList k.data ++ '"' :: ':' :: ' ' :: emitV v ind ++
                      ',' :: '\n' :: emitMembers (q :: m') ind) from by
                      rw [emitMembers] <;> simp]
                  simp [List.append_assoc]
                rw [hin, skipWs_append _ _ (ws_append hw (spacesList_ws ind)),
                  skipWs_not_ws _ (by decide)]
                simp only [if_pos rfl, eq_self_iff_true, if_true]
                rw [parseStr_quote]
                simp only [Option.some.injEq]
                rw [skipWs_not_ws _ (by decide)]
                have hv : parseVal fuel ([' '] ++ (emitV v ind ++
                    (',' :: ('\n' :: (emitMembers (q :: m') ind ++
                    ('\n' :: (spacesList j ++ (rbraceChar :: rest)))))))) =
                    some (v, ',' :: ('\n' :: (emitMembers (q :: m') ind ++
                    ('\n' :: (spacesList j ++ (rbraceChar :: rest)))))) := by
                  refine ihP v ind [' '] _
                    (by intro c hc; simp at hc; rw [hc]; decide) (by rfl) ?_
                  simp only [sizeM] at hsz
                  omega
                rw [show (' ' :: (emitV v ind ++
                    (',' :: ('\n' :: (emitMembers (q :: m') ind ++
                    ('\n' :: (spacesList j ++ (rbraceChar :: rest)))))))) =
                  [' '] ++ (emitV v ind ++
                    (',' :: ('\n' :: (emitMembers (q :: m') ind ++
                    ('\n' :: (spacesList j ++ (rbraceChar :: rest))))))) from rfl]
                simp only [hv]
                rw [skipWs_not_ws _ (by decide)]
                have hr := ihR (q :: m') ind j ['\n'] rest (by simp)
                  (by intro c hc; simp at hc; rw [hc]; decide)
                  (by simp only [sizeM] at hsz ⊢; omega)
                simp only [List.singleton_append] at hr
                simp [hr]

/-- Helper: `JSON.parse` inverts `JSON.stringify(·, null, 2)`. -/
theorem jsonParse_stringify (v : Json) : jsonParse (jsonStringify v) = some v := by
  have hmain := (parse_emit_all ((emitV v 0).length + 1)).1 v 0 [] []
    (by intro c hc; exact absurd hc (List.not_mem_nil c))
    rfl
    (by have := sizeJ_le_emit v 0; omega)
  rw [List.nil_append, List.append_nil] at hmain
  rw [jsonParse]
  rw [show (jsonStringify v).length = (emitV v 0).length from rfl]
  rw [show (jsonStringify v).data = emitV v 0 from rfl]
  rw [hmain]
  rfl

/-- C4: the JSON export round-trips — the export handler writes
`JSON.stringify(response.data, null, 2)` for format `json`, and re-parsing
that exported content yields exactly the response data (the filtered proxy
set) for every JSON value. -/
theorem C4_json_export_roundtrip (data : Json) :
    jsonParse (exportContent "json" data) = some data := by
  rw [show exportContent "json" data = jsonStringify data from by
    simp [exportContent]]
  exact jsonParse_stringify data
